import Mathlib

/-!
# procfs: `Proc.NewSmap` and `ProcSmap.ProportionalMemoryBytes`

A shallow embedding of `proc_smap.go`.

Modelling conventions.

* Go's `int` is the 64-bit two's-complement integer (`strconv.IntSize = 64`).
  Values are `Int`; every `+`, `*` and unary `-` of the source is followed by
  `wrapInt`, which reduces into `[-2^63, 2^63)`.  `uint64` values are `Nat`
  reduced modulo `2^64`.
* A Go string is a `List Char`.  The source only ever inspects the space byte
  `0x20`, the sign bytes and the digit bytes; in UTF-8 none of these occurs
  inside a multi-byte sequence, so splitting and parsing character by
  character agrees with Go's byte-by-byte processing.
* The file system is an explicit input (`World`): the result of
  `os.Open(p.path("smaps"))`, the lines `bufio.Scanner` delivers, the value
  of `scanner.Err()` after the loop, and the result of `p.Comm()`.
* A run-time panic (index out of range) is an explicit outcome.
-/

namespace Procfs

/-! ## Machine integers -/

/-- Largest value of Go's 64-bit `int`. -/
def maxInt : Int := 9223372036854775807

/-- Smallest value of Go's 64-bit `int`. -/
def minInt : Int := -9223372036854775808

/-- Largest value of `uint64`. -/
def maxUint64 : Nat := 18446744073709551615

/-- Two's-complement reduction of an integer into the range of Go's `int`. -/
def wrapInt (x : Int) : Int :=
  (x + 9223372036854775808) % 18446744073709551616 - 9223372036854775808

/-- Reduction of a natural number into the range of `uint64`. -/
def wrapUint64 (n : Nat) : Nat := n % 18446744073709551616

/-! ## Go standard library: `strings.Split` and `strconv.Atoi` -/

/-- Go's `strings.Split(s, " ")`: the substrings between single spaces.  The result
always has one more element than `s` has spaces; in particular
`Split "" = [""]`. -/
def Split : List Char → List (List Char)
  | [] => [[]]
  | c :: cs =>
    if c = ' ' then [] :: Split cs
    else
      match Split cs with
      | [] => [[c]]
      | t :: ts => (c :: t) :: ts

/-- The `Err` field of a `*strconv.NumError`. -/
inductive NumError where
  | ErrSyntax
  | ErrRange
  deriving DecidableEq, Repr

/-- The digit loop of `strconv.ParseUint(s, 10, 0)`; `n` is the value accumulated
so far.  `cutoff = maxUint64/10 + 1` and `maxVal = 1<<64 - 1`.  The loop stops at
the first offending byte or at the first overflow, whichever comes first. -/
def parseUintLoop : List Char → Nat → Nat × Option NumError
  | [], n => (n, none)
  | c :: cs, n =>
    if 48 ≤ c.toNat ∧ c.toNat ≤ 57 then
      let d := c.toNat - 48
      if n ≥ maxUint64 / 10 + 1 then
        (maxUint64, some NumError.ErrRange)
      else
        let n10 := wrapUint64 (n * 10)
        let n1 := wrapUint64 (n10 + d)
        if n1 < n10 ∨ n1 > maxUint64 then
          (maxUint64, some NumError.ErrRange)
        else parseUintLoop cs n1
    else
      (0, some NumError.ErrSyntax)

/-- Go's `strconv.ParseUint(s, 10, 0)`.  In base 10 a letter is a digit value of at
least 10 and an underscore is not accepted, so every byte other than `0`..`9`
is a syntax error. -/
def ParseUint (s : List Char) : Nat × Option NumError :=
  match s with
  | [] => (0, some NumError.ErrSyntax)
  | _ :: _ => parseUintLoop s 0

/-- Go's `strconv.ParseInt(s, 10, 0)`: optional sign, then `ParseUint`, then the
range check against `cutoff = 1 << 63`.  On a range error the value returned
is the bound of the matching sign. -/
def ParseInt (s : List Char) : Int × Option NumError :=
  match s with
  | [] => (0, some NumError.ErrSyntax)
  | c :: cs =>
    let neg : Bool := c = '-'
    let s1 := if c = '+' then cs else if c = '-' then cs else c :: cs
    match ParseUint s1 with
    | (_, some NumError.ErrSyntax) => (0, some NumError.ErrSyntax)
    | (un, _) =>
      if !neg ∧ un ≥ 9223372036854775808 then
        (9223372036854775807, some NumError.ErrRange)
      else if neg ∧ un > 9223372036854775808 then
        (-9223372036854775808, some NumError.ErrRange)
      else
        let n := wrapInt (un : Int)
        (if neg then wrapInt (-n) else n, none)

/-- The digit loop of the fast path of `strconv.Atoi`; `none` is the syntax error. -/
def atoiFastLoop : List Char → Int → Option Int
  | [], n => some n
  | c :: cs, n =>
    if 48 ≤ c.toNat ∧ c.toNat ≤ 57 then
      atoiFastLoop cs (wrapInt (wrapInt (n * 10) + ((c.toNat - 48 : Nat) : Int)))
    else none

/-- Go's `strconv.Atoi(s)` with `intSize = 64`: the value and the error's kind
(`none` for a nil error).  Strings of 1 to 18 bytes take the fast path, all
others go through `ParseInt`. -/
def Atoi (s : List Char) : Int × Option NumError :=
  match s with
  | [] => ParseInt s
  | c :: cs =>
    if s.length < 19 then
      if (c = '-' ∨ c = '+') ∧ cs.length < 1 then (0, some NumError.ErrSyntax)
      else
        match atoiFastLoop (if c = '-' ∨ c = '+' then cs else s) 0 with
        | none => (0, some NumError.ErrSyntax)
        | some n => (if c = '-' then wrapInt (-n) else n, none)
    else ParseInt s

/-! ## Data model -/

/-- Go's `error` values, identified by their message. -/
abbrev GoError := String

/-- The part of `Proc` that `NewSmap` reads: the process ID and the file-system
handle.  The type `FS` is declared elsewhere in the package and is a parameter
here; its zero value is `default`. -/
structure Proc (FS : Type) where
  PID : Int
  fs : FS
  deriving DecidableEq, Repr

/-- The memory information record `ProcSmap`. -/
structure ProcSmap (FS : Type) where
  PID : Int
  Comm : String
  Size : Int
  Rss : Int
  Pss : Int
  Shared_Clean : Int
  Shared_Dirty : Int
  Private_Clean : Int
  Private_Dirty : Int
  Referenced : Int
  Anonymous : Int
  Swap : Int
  fs : FS
  deriving DecidableEq, Repr

/-- Go's zero value `ProcSmap{}`. -/
def ProcSmap.zero (FS : Type) [Inhabited FS] : ProcSmap FS :=
  { PID := 0, Comm := "", Size := 0, Rss := 0, Pss := 0, Shared_Clean := 0,
    Shared_Dirty := 0, Private_Clean := 0, Private_Dirty := 0, Referenced := 0,
    Anonymous := 0, Swap := 0, fs := default }

/-- What the scanner reads from an opened `smaps` file: the lines delivered by
successive `scanner.Scan()` calls and the value of `scanner.Err()` once `Scan`
has returned false. -/
structure SmapsFile where
  lines : List (List Char)
  scanErr : Option GoError
  deriving DecidableEq, Repr

/-- The external collaborators of `NewSmap`: the result of
`os.Open(p.path("smaps"))` and the result of `p.Comm()`. -/
structure World where
  openSmaps : Except GoError SmapsFile
  comm : Except GoError String

/-- How a call of `NewSmap` ends: it returns a pair `(ProcSmap, error)`, or it
panics. -/
inductive Outcome (FS : Type) where
  | ret (ps : ProcSmap FS) (err : Option GoError)
  | panicked
  deriving DecidableEq, Repr

/-! ## `NewSmap` -/

/-- The `switch st[0]` of the loop body: add `value` to the counter named by
`label`, or do nothing. -/
def switchLabel {FS : Type} (ps : ProcSmap FS) (label : List Char) (value : Int) :
    ProcSmap FS :=
  if label = ['S', 'i', 'z', 'e', ':'] then
    { ps with Size := wrapInt (ps.Size + value) }
  else if label = ['R', 's', 's', ':'] then
    { ps with Rss := wrapInt (ps.Rss + value) }
  else if label = ['P', 's', 's', ':'] then
    { ps with Pss := wrapInt (ps.Pss + value) }
  else if label = ['S', 'h', 'a', 'r', 'e', 'd', '_', 'C', 'l', 'e', 'a', 'n', ':'] then
    { ps with Shared_Clean := wrapInt (ps.Shared_Clean + value) }
  else if label = ['S', 'h', 'a', 'r', 'e', 'd', '_', 'D', 'i', 'r', 't', 'y', ':'] then
    { ps with Shared_Dirty := wrapInt (ps.Shared_Dirty + value) }
  else if label = ['P', 'r', 'i', 'v', 'a', 't', 'e', '_', 'C', 'l', 'e', 'a', 'n', ':'] then
    { ps with Private_Clean := wrapInt (ps.Private_Clean + value) }
  else if label = ['P', 'r', 'i', 'v', 'a', 't', 'e', '_', 'D', 'i', 'r', 't', 'y', ':'] then
    { ps with Private_Dirty := wrapInt (ps.Private_Dirty + value) }
  else if label = ['R', 'e', 'f', 'e', 'r', 'e', 'n', 'c', 'e', 'd', ':'] then
    { ps with Referenced := wrapInt (ps.Referenced + value) }
  else if label = ['A', 'n', 'o', 'n', 'y', 'm', 'o', 'u', 's', ':'] then
    { ps with Anonymous := wrapInt (ps.Anonymous + value) }
  else if label = ['S', 'w', 'a', 'p', ':'] then
    { ps with Swap := wrapInt (ps.Swap + value) }
  else ps

/-- One iteration of the scanning loop on the line `text`; `none` is the
index-out-of-range panic.

    st = strings.Split(scanner.Text(), " ")
    _, st = st[len(st)-1], st[:len(st)-1]
    value, _ = strconv.Atoi(st[len(st)-1])
    switch st[0] { ... }
-/
def lineStep {FS : Type} (ps : ProcSmap FS) (text : List Char) : Option (ProcSmap FS) :=
  let st := Split text
  match st.getLast? with
  | none => none
  | some _ =>
    let st := st.dropLast
    match st.getLast? with
    | none => none
    | some tok =>
      let value := (Atoi tok).1
      match st.head? with
      | none => none
      | some label => some (switchLabel ps label value)

/-- The loop `for scanner.Scan() { ... }` over the delivered lines. -/
def scanLines {FS : Type} (ps : ProcSmap FS) : List (List Char) → Option (ProcSmap FS)
  | [] => some ps
  | text :: rest =>
    match lineStep ps text with
    | none => none
    | some ps1 => scanLines ps1 rest

/-- The method `func (p Proc) NewSmap() (ProcSmap, error)`. -/
def NewSmap {FS : Type} [Inhabited FS] (p : Proc FS) (w : World) : Outcome FS :=
  match w.openSmaps with
  | .error err => .ret (ProcSmap.zero FS) (some err)
  | .ok file =>
    match w.comm with
    | .error err => .ret (ProcSmap.zero FS) (some err)
    | .ok comm =>
      let ps : ProcSmap FS :=
        { PID := p.PID, Comm := comm, Size := 0, Rss := 0, Pss := 0, Shared_Clean := 0,
          Shared_Dirty := 0, Private_Clean := 0, Private_Dirty := 0, Referenced := 0,
          Anonymous := 0, Swap := 0, fs := p.fs }
      match scanLines ps file.lines with
      | none => .panicked
      | some ps1 =>
        match file.scanErr with
        | some err => .ret (ProcSmap.zero FS) (some err)
        | none => .ret ps1 none

/-- The method `func (s ProcSmap) ProportionalMemoryBytes() int`. -/
def ProportionalMemoryBytes {FS : Type} (s : ProcSmap FS) : Int :=
  wrapInt (s.Pss * 1024)

/-! ## Vocabulary of the specification -/

/-- The ten counters of a snapshot. -/
inductive Counter where
  | Size
  | Rss
  | Pss
  | Shared_Clean
  | Shared_Dirty
  | Private_Clean
  | Private_Dirty
  | Referenced
  | Anonymous
  | Swap
  deriving DecidableEq, Repr, Fintype

/-- The field label of a counter, trailing colon included. -/
def Counter.label : Counter → List Char
  | .Size => ['S', 'i', 'z', 'e', ':']
  | .Rss => ['R', 's', 's', ':']
  | .Pss => ['P', 's', 's', ':']
  | .Shared_Clean => ['S', 'h', 'a', 'r', 'e', 'd', '_', 'C', 'l', 'e', 'a', 'n', ':']
  | .Shared_Dirty => ['S', 'h', 'a', 'r', 'e', 'd', '_', 'D', 'i', 'r', 't', 'y', ':']
  | .Private_Clean => ['P', 'r', 'i', 'v', 'a', 't', 'e', '_', 'C', 'l', 'e', 'a', 'n', ':']
  | .Private_Dirty => ['P', 'r', 'i', 'v', 'a', 't', 'e', '_', 'D', 'i', 'r', 't', 'y', ':']
  | .Referenced => ['R', 'e', 'f', 'e', 'r', 'e', 'n', 'c', 'e', 'd', ':']
  | .Anonymous => ['A', 'n', 'o', 'n', 'y', 'm', 'o', 'u', 's', ':']
  | .Swap => ['S', 'w', 'a', 'p', ':']

/-- All counters, in the order of the record. -/
def Counter.all : List Counter :=
  [.Size, .Rss, .Pss, .Shared_Clean, .Shared_Dirty, .Private_Clean, .Private_Dirty,
   .Referenced, .Anonymous, .Swap]

/-- The recognised labels. -/
def recognisedLabels : List (List Char) := Counter.all.map Counter.label

/-- Read one counter of a snapshot. -/
def ProcSmap.get {FS : Type} (ps : ProcSmap FS) : Counter → Int
  | .Size => ps.Size
  | .Rss => ps.Rss
  | .Pss => ps.Pss
  | .Shared_Clean => ps.Shared_Clean
  | .Shared_Dirty => ps.Shared_Dirty
  | .Private_Clean => ps.Private_Clean
  | .Private_Dirty => ps.Private_Dirty
  | .Referenced => ps.Referenced
  | .Anonymous => ps.Anonymous
  | .Swap => ps.Swap

/-- Every counter of the snapshot is a value of Go's `int`. -/
def ProcSmap.InRange {FS : Type} (ps : ProcSmap FS) : Prop :=
  ∀ c : Counter, minInt ≤ ps.get c ∧ ps.get c ≤ maxInt

instance {FS : Type} (ps : ProcSmap FS) : Decidable ps.InRange := by
  unfold ProcSmap.InRange; infer_instance

/-- The line contains at least one space. -/
def hasSpace (text : List Char) : Prop := ' ' ∈ text

instance (text : List Char) : Decidable (hasSpace text) := by
  unfold hasSpace; infer_instance

/-- The first space-separated token of a line: everything before the first
space. -/
def firstToken (text : List Char) : List Char := text.takeWhile (fun c => c ≠ ' ')

/-- The token the loop body hands to `strconv.Atoi`: the last element of the
split once its final element has been dropped (the empty string when there is
none). -/
def valueToken (text : List Char) : List Char :=
  ((Split text).dropLast.getLast?).getD []

/-- What a line adds to counter `c`, as the loop body computes it: the value
`Atoi` returns for the value token if the first token is the label of `c`, and
nothing otherwise. -/
def lineContribution (c : Counter) (text : List Char) : Int :=
  if firstToken text = c.label then (Atoi (valueToken text)).1 else 0

/-- The line `label tok unit`: the three tokens separated by single spaces. -/
def fieldLine (label tok unit : List Char) : List Char :=
  label ++ ' ' :: (tok ++ ' ' :: unit)

/-- The character is one of the decimal digits `0` to `9`. -/
def isDigit (c : Char) : Bool := decide (48 ≤ c.toNat ∧ c.toNat ≤ 57)

/-- The number denoted by the decimal digits `ds` appended to the digits of `n`. -/
def digitsValueFrom (n : Nat) (ds : List Char) : Nat :=
  ds.foldl (fun acc c => acc * 10 + (c.toNat - 48)) n

/-- The number a string of decimal digits denotes. -/
def digitsValue (ds : List Char) : Nat := digitsValueFrom 0 ds

/-- The integer a decimal numeral denotes: an optional sign `+` or `-` followed by
one or more decimal digits; `none` for every other string. -/
def decimalValue : List Char → Option Int
  | [] => none
  | c :: cs =>
    if c = '-' then
      if cs ≠ [] ∧ cs.all isDigit then some (-(digitsValue cs : Int)) else none
    else if c = '+' then
      if cs ≠ [] ∧ cs.all isDigit then some (digitsValue cs : Int) else none
    else
      if (c :: cs).all isDigit then some (digitsValue (c :: cs) : Int) else none

/-- The line `label  ...  tok unit` as the kernel pads it: `k` extra spaces
between the label and the value, one space between the value and the unit. -/
def paddedLine (label : List Char) (k : Nat) (tok unit : List Char) : List Char :=
  label ++ ' ' :: (List.replicate k ' ' ++ (tok ++ ' ' :: unit))

/-- The integer value a line states for counter `c`: the number denoted by the
token that stands before the unit (the second-to-last element of the split)
when the line's first token is the label of `c`, and `0` for every other
line. -/
def lineValue (c : Counter) (text : List Char) : Int :=
  if firstToken text = c.label then (decimalValue (valueToken text)).getD 0 else 0

/-- A well-formed line of the `smaps` format: it contains a space and is either a
header or other line whose first token is not a recognised label, or a line
`Label: <integer> <unit>` for a recognised label whose value is a decimal
integer in the range of `int`.  The label and the value are separated by one
or more spaces (the kernel pads the label column, `k` counts the extra
spaces), the value and the unit by one. -/
inductive WellFormedLine : List Char → Prop where
  | other (text : List Char) (hsp : hasSpace text)
      (hlab : firstToken text ∉ recognisedLabels) : WellFormedLine text
  | field (c : Counter) (k : Nat) (tok unit : List Char) (n : Int)
      (hval : decimalValue tok = some n) (hlo : minInt ≤ n) (hhi : n ≤ maxInt)
      (hunit : ¬ hasSpace unit) : WellFormedLine (paddedLine c.label k tok unit)

/-- The token is non-numeric: it contains a character that is neither a sign nor a
decimal digit. -/
def nonNumeric (t : List Char) : Prop :=
  ∃ c ∈ t, c ≠ '+' ∧ c ≠ '-' ∧ isDigit c = false

instance (t : List Char) : Decidable (nonNumeric t) := by
  unfold nonNumeric; infer_instance

/-- The digits a token starts with, after one optional sign. -/
def leadingDigits (t : List Char) : List Char :=
  match t with
  | [] => []
  | c :: cs => (if c = '+' ∨ c = '-' then cs else c :: cs).takeWhile isDigit

/-- A world in which the `smaps` file opens, holds `lines`, is read without
error, and the command name resolves to `comm`. -/
def World.reading (comm : String) (lines : List (List Char)) : World :=
  { openSmaps := .ok { lines := lines, scanErr := none }, comm := .ok comm }

/-- The snapshot as the composite literal `var ps = ProcSmap{...}` initialises it
before the loop. -/
def initialSnapshot {FS : Type} (p : Proc FS) (comm : String) : ProcSmap FS :=
  { PID := p.PID, Comm := comm, Size := 0, Rss := 0, Pss := 0, Shared_Clean := 0,
    Shared_Dirty := 0, Private_Clean := 0, Private_Dirty := 0, Referenced := 0,
    Anonymous := 0, Swap := 0, fs := p.fs }

/-- The list `lines` with `text` inserted before position `i`. -/
def insertLine (lines : List (List Char)) (i : Nat) (text : List Char) :
    List (List Char) :=
  lines.take i ++ text :: lines.drop i

/-- The integer value a line carries for counter `c`: the number its value token
(the second-to-last element of the split) denotes when its first token is the
label of `c`, and `0` for every other line. -/
def carriedValue (c : Counter) (text : List Char) : Int :=
  if firstToken text = c.label then (decimalValue (valueToken text)).getD 0 else 0

/-- A line of a recognised label carries a non-negative decimal integer that fits
the `int` type; lines of other labels are not constrained. -/
def carriesNonNegativeValue (text : List Char) : Prop :=
  firstToken text ∈ recognisedLabels →
    ∃ n : Int, decimalValue (valueToken text) = some n ∧ 0 ≤ n ∧ n ≤ maxInt

/-- The character of a decimal digit `d < 10`. -/
def digitChar (d : Nat) : Char :=
  match d with
  | 0 => '0'
  | 1 => '1'
  | 2 => '2'
  | 3 => '3'
  | 4 => '4'
  | 5 => '5'
  | 6 => '6'
  | 7 => '7'
  | 8 => '8'
  | _ => '9'

/-- The decimal digits of `m`, most significant first, computed with `fuel` steps. -/
def renderNatFuel : Nat → Nat → List Char
  | 0, _ => []
  | fuel + 1, m =>
    if m < 10 then [digitChar m]
    else renderNatFuel fuel (m / 10) ++ [digitChar (m % 10)]

/-- The decimal numeral of a natural number, without sign or leading zeros. -/
def renderNat (m : Nat) : List Char := renderNatFuel (m + 1) m

/-- The decimal numeral of an integer: a `-` sign for a negative number, then the
digits of its absolute value. -/
def renderInt (n : Int) : List Char :=
  if n < 0 then '-' :: renderNat n.natAbs else renderNat n.natAbs

/-! ## Machine-integer lemmas -/

theorem wrapInt_of_inRange {x : Int} (hlo : minInt ≤ x) (hhi : x ≤ maxInt) :
    wrapInt x = x := by
  unfold wrapInt
  unfold minInt at hlo
  unfold maxInt at hhi
  omega

theorem wrapInt_inRange (x : Int) : minInt ≤ wrapInt x ∧ wrapInt x ≤ maxInt := by
  unfold wrapInt minInt maxInt
  omega

theorem wrapInt_add_wrapInt_left (x y : Int) : wrapInt (wrapInt x + y) = wrapInt (x + y) := by
  unfold wrapInt
  omega

theorem wrapInt_add_wrapInt (x y : Int) :
    wrapInt (wrapInt x + wrapInt y) = wrapInt (x + y) := by
  unfold wrapInt
  omega

/-! ## `ProportionalMemoryBytes` -/

/-- C7 (as stated, refuted): at the largest `int`, `Pss * 1024` wraps around and
`ProportionalMemoryBytes` returns `-1024`, not `Pss * 1024`. -/
theorem C7_counterexample_wraps :
    (0 : Int) ≤ 9223372036854775807 ∧ (9223372036854775807 : Int) ≤ maxInt
      ∧ ProportionalMemoryBytes
          { ProcSmap.zero String with Pss := 9223372036854775807 } = -1024
      ∧ ProportionalMemoryBytes
          { ProcSmap.zero String with Pss := 9223372036854775807 }
          ≠ 9223372036854775807 * 1024 := by
  decide

/-- C7 (amended): for a snapshot with `0 ≤ Pss` in the range of `int`, the result is
exactly `Pss * 1024` if and only if `Pss ≤ 2^53 - 1`; and the result depends on
no field other than `Pss`. -/
theorem C7_proportional_exact_iff_below_2_pow_53 {FS : Type} (s : ProcSmap FS)
    (h0 : 0 ≤ s.Pss) (h1 : s.Pss ≤ maxInt) :
    (ProportionalMemoryBytes s = s.Pss * 1024 ↔ s.Pss ≤ 9007199254740991)
      ∧ ∀ s1 : ProcSmap FS, s1.Pss = s.Pss →
          ProportionalMemoryBytes s1 = ProportionalMemoryBytes s := by
  unfold maxInt at h1
  constructor
  · unfold ProportionalMemoryBytes wrapInt
    constructor
    · intro h
      omega
    · intro h
      omega
  · intro s1 h
    unfold ProportionalMemoryBytes
    rw [h]

theorem C7_proportional_exact_iff_witness :
    ((0 : Int) ≤ 9007199254740991 ∧ (9007199254740991 : Int) ≤ maxInt)
    ∧ ((ProportionalMemoryBytes { ProcSmap.zero String with Pss := 9007199254740991 }
          = 9007199254740991 * 1024 ↔ (9007199254740991 : Int) ≤ 9007199254740991)
      ∧ ∀ s1 : ProcSmap String, s1.Pss = 9007199254740991 →
          ProportionalMemoryBytes s1
            = ProportionalMemoryBytes
                { ProcSmap.zero String with Pss := 9007199254740991 }) :=
  ⟨by decide,
   C7_proportional_exact_iff_below_2_pow_53
     { ProcSmap.zero String with Pss := 9007199254740991 } (by decide) (by decide)⟩

/-! ## Error returns -/

/-- C8: whenever `NewSmap` returns a non-nil error, the snapshot returned with it is
the zero value: all ten counters are `0`, `PID` is `0` and `Comm` is empty. -/
theorem C8_error_returns_zero_snapshot {FS : Type} [Inhabited FS] (p : Proc FS)
    (w : World) (ps : ProcSmap FS) (err : GoError)
    (h : NewSmap p w = Outcome.ret ps (some err)) :
    ps = ProcSmap.zero FS ∧ (∀ c : Counter, ps.get c = 0) ∧ ps.PID = 0 ∧ ps.Comm = "" := by
  have hz : ps = ProcSmap.zero FS := by
    unfold NewSmap at h
    split at h
    · cases h; rfl
    · split at h
      · cases h; rfl
      · dsimp only at h
        split at h
        · cases h
        · split at h
          · cases h; rfl
          · cases h
  subst hz
  refine ⟨rfl, ?_, rfl, rfl⟩
  intro c
  cases c <;> rfl

theorem C8_error_returns_zero_snapshot_witness :
    NewSmap ({ PID := 4242, fs := "/proc" } : Proc String)
        { openSmaps := .ok { lines := ["Rss: 100 kB".toList, "Pss: 50 kB".toList],
                             scanErr := some "read /proc/4242/smaps: input/output error" },
          comm := .ok "bash" }
      = Outcome.ret (ProcSmap.zero String)
          (some "read /proc/4242/smaps: input/output error")
    ∧ (ProcSmap.zero String = ProcSmap.zero String
        ∧ (∀ c : Counter, (ProcSmap.zero String).get c = 0)
        ∧ (ProcSmap.zero String).PID = 0 ∧ (ProcSmap.zero String).Comm = "") :=
  ⟨by decide,
   C8_error_returns_zero_snapshot ({ PID := 4242, fs := "/proc" } : Proc String)
     { openSmaps := .ok { lines := ["Rss: 100 kB".toList, "Pss: 50 kB".toList],
                          scanErr := some "read /proc/4242/smaps: input/output error" },
       comm := .ok "bash" }
     (ProcSmap.zero String) "read /proc/4242/smaps: input/output error" (by decide)⟩

/-- C9 (as stated, refuted): when both the open and the command-name lookup fail,
`NewSmap` returns the error of the open, not the error of the lookup. -/
theorem C9_counterexample_open_error_first :
    NewSmap ({ PID := 4242, fs := "/proc" } : Proc String)
        { openSmaps := .error "open /proc/4242/smaps: no such file or directory",
          comm := .error "open /proc/4242/comm: no such file or directory" }
      = Outcome.ret (ProcSmap.zero String)
          (some "open /proc/4242/smaps: no such file or directory")
    ∧ NewSmap ({ PID := 4242, fs := "/proc" } : Proc String)
        { openSmaps := .error "open /proc/4242/smaps: no such file or directory",
          comm := .error "open /proc/4242/comm: no such file or directory" }
      ≠ Outcome.ret (ProcSmap.zero String)
          (some "open /proc/4242/comm: no such file or directory") := by
  decide

/-- C9 (amended): opening the source comes first and the command-name lookup second.
If the open fails, `NewSmap` returns the open's error whatever the lookup
would do; the lookup's error is returned when the open succeeds and the lookup
fails, whatever the file holds. -/
theorem C9_open_then_comm {FS : Type} [Inhabited FS] (p : Proc FS) (e : GoError) :
    (∀ comm : Except GoError String,
        NewSmap p { openSmaps := .error e, comm := comm }
          = Outcome.ret (ProcSmap.zero FS) (some e))
    ∧ (∀ file : SmapsFile,
        NewSmap p { openSmaps := .ok file, comm := .error e }
          = Outcome.ret (ProcSmap.zero FS) (some e)) :=
  ⟨fun _ => rfl, fun _ => rfl⟩

/-! ## `strings.Split` -/

theorem Split_ne_nil (s : List Char) : Split s ≠ [] := by
  cases s with
  | nil => simp [Split]
  | cons c cs =>
    unfold Split
    split_ifs
    · simp
    · cases Split cs <;> simp

theorem Split_of_not_hasSpace (s : List Char) (h : ¬ hasSpace s) : Split s = [s] := by
  induction s with
  | nil => rfl
  | cons c cs ih =>
    unfold hasSpace at h ih
    have hc : c ≠ ' ' := fun e => h (by simp [e])
    have hcs : ' ' ∉ cs := fun e => h (by simp [e])
    rw [Split, if_neg hc, ih hcs]

theorem Split_append_space (a b : List Char) (h : ¬ hasSpace a) :
    Split (a ++ ' ' :: b) = a :: Split b := by
  induction a with
  | nil => simp [Split]
  | cons c cs ih =>
    unfold hasSpace at h ih
    have hc : c ≠ ' ' := fun e => h (by simp [e])
    have hcs : ' ' ∉ cs := fun e => h (by simp [e])
    rw [List.cons_append, Split, if_neg hc, ih hcs]

theorem firstToken_not_hasSpace (s : List Char) : ¬ hasSpace (firstToken s) := by
  unfold hasSpace firstToken
  intro h
  have := List.mem_takeWhile_imp h
  simp at this

theorem firstToken_append_space (a b : List Char) (h : ¬ hasSpace a) :
    firstToken (a ++ ' ' :: b) = a := by
  induction a with
  | nil => simp [firstToken]
  | cons c cs ih =>
    unfold hasSpace at h ih
    have hc : c ≠ ' ' := fun e => h (by simp [e])
    have hcs : ' ' ∉ cs := fun e => h (by simp [e])
    have := ih hcs
    unfold firstToken at this ⊢
    simpa [List.takeWhile_cons, hc] using this

/-- A line with a space is its first token, a space, and the rest. -/
theorem eq_firstToken_append_of_hasSpace (s : List Char) (h : hasSpace s) :
    ∃ rest, s = firstToken s ++ ' ' :: rest := by
  induction s with
  | nil => exact absurd h (by simp [hasSpace])
  | cons c cs ih =>
    by_cases hc : c = ' '
    · exact ⟨cs, by simp [firstToken, hc]⟩
    · have hcs : hasSpace cs := by
        unfold hasSpace at h ⊢
        rcases List.mem_cons.mp h with e | e
        · exact absurd e.symm hc
        · exact e
      obtain ⟨rest, hrest⟩ := ih hcs
      refine ⟨rest, ?_⟩
      unfold firstToken at hrest ⊢
      simp only [List.takeWhile_cons, ne_eq, hc, not_false_eq_true, decide_True, if_true,
        List.cons_append]
      exact congrArg (List.cons c) hrest

theorem Split_of_hasSpace (s : List Char) (h : hasSpace s) :
    ∃ t ts, Split s = firstToken s :: t :: ts := by
  obtain ⟨rest, hrest⟩ := eq_firstToken_append_of_hasSpace s h
  have hs : Split s = firstToken s :: Split rest := by
    conv_lhs => rw [hrest]
    exact Split_append_space _ _ (firstToken_not_hasSpace s)
  cases hr : Split rest with
  | nil => exact absurd hr (Split_ne_nil rest)
  | cons t ts => exact ⟨t, ts, by rw [hs, hr]⟩

/-! ## The loop body -/

theorem lineStep_of_not_hasSpace {FS : Type} (ps : ProcSmap FS) (text : List Char)
    (h : ¬ hasSpace text) : lineStep ps text = none := by
  unfold lineStep
  simp [Split_of_not_hasSpace text h]

theorem lineStep_of_hasSpace {FS : Type} (ps : ProcSmap FS) (text : List Char)
    (h : hasSpace text) :
    lineStep ps text
      = some (switchLabel ps (firstToken text) (Atoi (valueToken text)).1) := by
  obtain ⟨t, ts, hs⟩ := Split_of_hasSpace text h
  have hd : (Split text).dropLast = firstToken text :: (t :: ts).dropLast := by
    rw [hs]; rfl
  unfold lineStep valueToken
  simp only [hd]
  rw [hs]
  simp only [List.getLast?_cons_cons, List.head?_cons]
  cases hl : (t :: ts).getLast? with
  | none => simp at hl
  | some x =>
    cases hl2 : (firstToken text :: (t :: ts).dropLast).getLast? with
    | none => simp at hl2
    | some y => simp

/-! ## The `switch` on the label -/

theorem ProcSmap.ext_get {FS : Type} (a b : ProcSmap FS) (hpid : a.PID = b.PID)
    (hcomm : a.Comm = b.Comm) (hfs : a.fs = b.fs) (hget : ∀ c, a.get c = b.get c) :
    a = b := by
  have h1 := hget .Size
  have h2 := hget .Rss
  have h3 := hget .Pss
  have h4 := hget .Shared_Clean
  have h5 := hget .Shared_Dirty
  have h6 := hget .Private_Clean
  have h7 := hget .Private_Dirty
  have h8 := hget .Referenced
  have h9 := hget .Anonymous
  have h10 := hget .Swap
  cases a
  cases b
  simp only [ProcSmap.get] at h1 h2 h3 h4 h5 h6 h7 h8 h9 h10
  simp only at hpid hcomm hfs
  subst hpid hcomm hfs h1 h2 h3 h4 h5 h6 h7 h8 h9 h10
  rfl

theorem switchLabel_PID {FS : Type} (ps : ProcSmap FS) (l : List Char) (v : Int) :
    (switchLabel ps l v).PID = ps.PID := by
  unfold switchLabel
  simp only [apply_ite ProcSmap.PID, ite_self]

theorem switchLabel_Comm {FS : Type} (ps : ProcSmap FS) (l : List Char) (v : Int) :
    (switchLabel ps l v).Comm = ps.Comm := by
  unfold switchLabel
  simp only [apply_ite ProcSmap.Comm, ite_self]

theorem switchLabel_fs {FS : Type} (ps : ProcSmap FS) (l : List Char) (v : Int) :
    (switchLabel ps l v).fs = ps.fs := by
  unfold switchLabel
  simp only [apply_ite ProcSmap.fs, ite_self]

theorem switchLabel_get_self {FS : Type} (ps : ProcSmap FS) (v : Int) (c : Counter) :
    (switchLabel ps c.label v).get c = wrapInt (ps.get c + v) := by
  cases c <;> rfl

theorem switchLabel_get_other {FS : Type} (ps : ProcSmap FS) (l : List Char) (v : Int)
    (c : Counter) (h : l ≠ c.label) : (switchLabel ps l v).get c = ps.get c := by
  cases c <;>
    (simp only [Counter.label] at h
     simp only [ProcSmap.get, switchLabel, apply_ite ProcSmap.Size,
       apply_ite ProcSmap.Rss, apply_ite ProcSmap.Pss, apply_ite ProcSmap.Shared_Clean,
       apply_ite ProcSmap.Shared_Dirty, apply_ite ProcSmap.Private_Clean,
       apply_ite ProcSmap.Private_Dirty, apply_ite ProcSmap.Referenced,
       apply_ite ProcSmap.Anonymous, apply_ite ProcSmap.Swap, if_neg h, ite_self])

/-- The `switch` adds `v` to the counter whose label is `l` and leaves every other
counter alone. -/
theorem switchLabel_get {FS : Type} (ps : ProcSmap FS) (l : List Char) (v : Int)
    (c : Counter) :
    (switchLabel ps l v).get c
      = if l = c.label then wrapInt (ps.get c + v) else ps.get c := by
  by_cases h : l = c.label
  · rw [if_pos h, h, switchLabel_get_self]
  · rw [if_neg h, switchLabel_get_other ps l v c h]

theorem switchLabel_unrecognised {FS : Type} (ps : ProcSmap FS) (l : List Char) (v : Int)
    (h : l ∉ recognisedLabels) : switchLabel ps l v = ps := by
  apply ProcSmap.ext_get
  · exact switchLabel_PID ps l v
  · exact switchLabel_Comm ps l v
  · exact switchLabel_fs ps l v
  · intro c
    rw [switchLabel_get, if_neg]
    intro e
    apply h
    rw [e]
    cases c <;> simp [recognisedLabels, Counter.all]

theorem switchLabel_zero {FS : Type} (ps : ProcSmap FS) (l : List Char)
    (h : ps.InRange) : switchLabel ps l 0 = ps := by
  apply ProcSmap.ext_get
  · exact switchLabel_PID ps l 0
  · exact switchLabel_Comm ps l 0
  · exact switchLabel_fs ps l 0
  · intro c
    rw [switchLabel_get]
    split_ifs
    · rw [add_zero]
      exact wrapInt_of_inRange (h c).1 (h c).2
    · rfl

theorem switchLabel_InRange {FS : Type} (ps : ProcSmap FS) (l : List Char) (v : Int)
    (h : ps.InRange) : (switchLabel ps l v).InRange := by
  intro c
  rw [switchLabel_get]
  split_ifs
  · exact wrapInt_inRange _
  · exact h c

theorem initialSnapshot_InRange {FS : Type} (p : Proc FS) (comm : String) :
    (initialSnapshot p comm).InRange := by
  intro c
  cases c <;> simp [initialSnapshot, ProcSmap.get, minInt, maxInt]

theorem initialSnapshot_get {FS : Type} (p : Proc FS) (comm : String) (c : Counter) :
    (initialSnapshot p comm).get c = 0 := by
  cases c <;> rfl

/-! ## The scanning loop -/

theorem scanLines_append {FS : Type} (ps : ProcSmap FS) (A B : List (List Char)) :
    scanLines ps (A ++ B) = (scanLines ps A).bind (fun ps1 => scanLines ps1 B) := by
  induction A generalizing ps with
  | nil => rfl
  | cons text rest ih =>
    rw [List.cons_append, scanLines, scanLines]
    cases lineStep ps text with
    | none => rfl
    | some ps1 => exact ih ps1

/-- On lines that all contain a space the loop runs to completion; it leaves `PID`,
`Comm` and `fs` alone and adds to each counter the sum of the lines'
contributions, modulo `2^64`. -/
theorem scanLines_of_hasSpace {FS : Type} (lines : List (List Char))
    (h : ∀ text ∈ lines, hasSpace text) (ps : ProcSmap FS) (hps : ps.InRange) :
    ∃ ps1, scanLines ps lines = some ps1 ∧ ps1.PID = ps.PID ∧ ps1.Comm = ps.Comm
      ∧ ps1.fs = ps.fs
      ∧ ∀ c, ps1.get c = wrapInt (ps.get c + (lines.map (lineContribution c)).sum) := by
  induction lines generalizing ps with
  | nil =>
    refine ⟨ps, rfl, rfl, rfl, rfl, ?_⟩
    intro c
    simp only [List.map_nil, List.sum_nil, add_zero]
    exact (wrapInt_of_inRange (hps c).1 (hps c).2).symm
  | cons text rest ih =>
    have htext : hasSpace text := h text (List.mem_cons_self _ _)
    have hrest : ∀ t ∈ rest, hasSpace t := fun t ht => h t (List.mem_cons_of_mem _ ht)
    obtain ⟨ps1, hscan, hpid, hcomm, hfs, hget⟩ :=
      ih hrest (switchLabel ps (firstToken text) (Atoi (valueToken text)).1)
        (switchLabel_InRange _ _ _ hps)
    refine ⟨ps1, ?_, ?_, ?_, ?_, ?_⟩
    · rw [scanLines, lineStep_of_hasSpace ps text htext]
      exact hscan
    · rw [hpid, switchLabel_PID]
    · rw [hcomm, switchLabel_Comm]
    · rw [hfs, switchLabel_fs]
    · intro c
      rw [hget c, switchLabel_get, List.map_cons, List.sum_cons]
      unfold lineContribution
      split_ifs
      · rw [wrapInt_add_wrapInt_left, add_assoc]
      · rw [zero_add]

theorem NewSmap_reading {FS : Type} [Inhabited FS] (p : Proc FS) (comm : String)
    (lines : List (List Char)) :
    NewSmap p (World.reading comm lines)
      = match scanLines (initialSnapshot p comm) lines with
        | none => Outcome.panicked
        | some ps => Outcome.ret ps none := by
  rfl

/-- Reading lines that all contain a space succeeds, and each counter is the sum of
the lines' contributions reduced modulo `2^64`. -/
theorem NewSmap_of_hasSpace {FS : Type} [Inhabited FS] (p : Proc FS) (comm : String)
    (lines : List (List Char)) (h : ∀ text ∈ lines, hasSpace text) :
    ∃ ps, NewSmap p (World.reading comm lines) = Outcome.ret ps none
      ∧ ps.PID = p.PID ∧ ps.Comm = comm ∧ ps.fs = p.fs
      ∧ ∀ c, ps.get c = wrapInt ((lines.map (lineContribution c)).sum) := by
  obtain ⟨ps, hscan, hpid, hcomm, hfs, hget⟩ :=
    scanLines_of_hasSpace lines h (initialSnapshot p comm) (initialSnapshot_InRange p comm)
  refine ⟨ps, ?_, hpid, hcomm, hfs, ?_⟩
  · rw [NewSmap_reading, hscan]
  · intro c
    rw [hget c, initialSnapshot_get, zero_add]

theorem hasSpace_of_lineStep_ne_none {FS : Type} (ps : ProcSmap FS) (text : List Char)
    (h : lineStep ps text ≠ none) : hasSpace text := by
  by_contra hn
  exact h (lineStep_of_not_hasSpace ps text hn)

/-! ## Additivity -/

/-- C10: for line lists `A` and `B` on which the loop body does not fail, `NewSmap`
succeeds on `A`, on `B` and on `A ++ B`, and each counter of the snapshot of
`A ++ B` is the machine-integer sum of that counter in the snapshots of `A` and
of `B`; the empty input gives all counters `0`. -/
theorem C10_aggregation_is_additive {FS : Type} [Inhabited FS] (p : Proc FS)
    (comm : String) (A B : List (List Char))
    (hA : ∀ text ∈ A, ∀ ps : ProcSmap FS, lineStep ps text ≠ none)
    (hB : ∀ text ∈ B, ∀ ps : ProcSmap FS, lineStep ps text ≠ none) :
    (∃ pa pb pab : ProcSmap FS,
        NewSmap p (World.reading comm A) = Outcome.ret pa none
        ∧ NewSmap p (World.reading comm B) = Outcome.ret pb none
        ∧ NewSmap p (World.reading comm (A ++ B)) = Outcome.ret pab none
        ∧ ∀ c, pab.get c = wrapInt (pa.get c + pb.get c))
    ∧ (∃ p0 : ProcSmap FS,
        NewSmap p (World.reading comm []) = Outcome.ret p0 none ∧ ∀ c, p0.get c = 0) := by
  have hA1 : ∀ text ∈ A, hasSpace text := fun text ht =>
    hasSpace_of_lineStep_ne_none (initialSnapshot p comm) text (hA text ht _)
  have hB1 : ∀ text ∈ B, hasSpace text := fun text ht =>
    hasSpace_of_lineStep_ne_none (initialSnapshot p comm) text (hB text ht _)
  have hAB : ∀ text ∈ A ++ B, hasSpace text := by
    intro text ht
    rcases List.mem_append.mp ht with h | h
    · exact hA1 text h
    · exact hB1 text h
  obtain ⟨pa, hpa, -, -, -, hga⟩ := NewSmap_of_hasSpace p comm A hA1
  obtain ⟨pb, hpb, -, -, -, hgb⟩ := NewSmap_of_hasSpace p comm B hB1
  obtain ⟨pab, hpab, -, -, -, hgab⟩ := NewSmap_of_hasSpace p comm (A ++ B) hAB
  constructor
  · refine ⟨pa, pb, pab, hpa, hpb, hpab, ?_⟩
    intro c
    rw [hgab c, hga c, hgb c, List.map_append, List.sum_append, wrapInt_add_wrapInt]
  · exact ⟨initialSnapshot p comm, rfl, initialSnapshot_get p comm⟩

theorem C10_aggregation_is_additive_witness :
    (∃ pa pb pab : ProcSmap String,
        NewSmap ({ PID := 1, fs := "/proc" } : Proc String)
            (World.reading "init" ["Rss: 100 kB".toList]) = Outcome.ret pa none
        ∧ NewSmap ({ PID := 1, fs := "/proc" } : Proc String)
            (World.reading "init" ["Rss: 7 kB".toList, "Swap: 3 kB".toList])
            = Outcome.ret pb none
        ∧ NewSmap ({ PID := 1, fs := "/proc" } : Proc String)
            (World.reading "init"
              (["Rss: 100 kB".toList] ++ ["Rss: 7 kB".toList, "Swap: 3 kB".toList]))
            = Outcome.ret pab none
        ∧ ∀ c, pab.get c = wrapInt (pa.get c + pb.get c))
    ∧ (∃ p0 : ProcSmap String,
        NewSmap ({ PID := 1, fs := "/proc" } : Proc String) (World.reading "init" [])
            = Outcome.ret p0 none ∧ ∀ c, p0.get c = 0) :=
  C10_aggregation_is_additive ({ PID := 1, fs := "/proc" } : Proc String) "init"
    ["Rss: 100 kB".toList] ["Rss: 7 kB".toList, "Swap: 3 kB".toList]
    (by
      intro text ht ps
      rw [lineStep_of_hasSpace ps text (by
        simp only [List.mem_singleton] at ht
        subst ht
        decide)]
      exact Option.some_ne_none _)
    (by
      intro text ht ps
      rw [lineStep_of_hasSpace ps text (by
        simp only [List.mem_cons, List.mem_singleton, List.not_mem_nil, or_false] at ht
        rcases ht with h | h <;> (subst h; decide))]
      exact Option.some_ne_none _)

/-! ## Lines the loop does not recognise, and lines it cannot index -/

/-- A line with a space whose first token is not a recognised label leaves the
snapshot as it is. -/
theorem lineStep_unrecognised {FS : Type} (ps : ProcSmap FS) (text : List Char)
    (hsp : hasSpace text) (hlab : firstToken text ∉ recognisedLabels) :
    lineStep ps text = some ps := by
  rw [lineStep_of_hasSpace ps text hsp, switchLabel_unrecognised ps _ _ hlab]

/-- Inserting, anywhere, a line with a space whose first token is not a recognised
label changes nothing in what `NewSmap` does. -/
theorem NewSmap_insertLine_unrecognised {FS : Type} [Inhabited FS] (p : Proc FS)
    (comm : Except GoError String) (lines : List (List Char)) (scanErr : Option GoError)
    (i : Nat) (text : List Char)
    (hsp : hasSpace text) (hlab : firstToken text ∉ recognisedLabels) :
    NewSmap p { openSmaps := .ok { lines := insertLine lines i text, scanErr := scanErr },
                comm := comm }
      = NewSmap p { openSmaps := .ok { lines := lines, scanErr := scanErr },
                    comm := comm } := by
  have hscan : ∀ ps : ProcSmap FS,
      scanLines ps (insertLine lines i text) = scanLines ps lines := by
    intro ps
    unfold insertLine
    conv_rhs => rw [← List.take_append_drop i lines]
    rw [scanLines_append, scanLines_append]
    cases scanLines ps (List.take i lines) with
    | none => rfl
    | some ps1 =>
      simp only [Option.some_bind]
      rw [scanLines, lineStep_unrecognised ps1 text hsp hlab]
  unfold NewSmap
  cases comm with
  | error e => rfl
  | ok c =>
    dsimp only
    rw [hscan]

/-- C3 (failing input): the empty line has the first token `""`, which is not a
recognised label; inserted after the only line of a file that reads fine, it
makes `NewSmap` panic instead of returning the unchanged counters. -/
theorem C3_insert_spaceless_line_panics :
    firstToken [] ∉ recognisedLabels
    ∧ NewSmap ({ PID := 4242, fs := "/proc" } : Proc String)
        (World.reading "bash" ["Rss: 100 kB".toList])
      = Outcome.ret
          { PID := 4242, Comm := "bash", Size := 0, Rss := 100, Pss := 0,
            Shared_Clean := 0, Shared_Dirty := 0, Private_Clean := 0,
            Private_Dirty := 0, Referenced := 0, Anonymous := 0, Swap := 0,
            fs := "/proc" } none
    ∧ NewSmap ({ PID := 4242, fs := "/proc" } : Proc String)
        (World.reading "bash" (insertLine ["Rss: 100 kB".toList] 1 []))
      = Outcome.panicked := by
  decide

/-- C4 (failing input): on the empty line and on a line made of one token without a
space the loop body panics with an index out of range, and so does `NewSmap`
on a file that holds such a line. -/
theorem C4_spaceless_line_panics :
    lineStep (ProcSmap.zero String) [] = none
    ∧ lineStep (ProcSmap.zero String) "VmFlags:".toList = none
    ∧ NewSmap ({ PID := 4242, fs := "/proc" } : Proc String)
        (World.reading "bash" ["Rss: 100 kB".toList, [], "Pss: 50 kB".toList])
      = Outcome.panicked := by
  decide

/-! ## `strconv.Atoi` on decimal numerals -/

theorem digitsValueFrom_cons (n : Nat) (c : Char) (cs : List Char) :
    digitsValueFrom n (c :: cs) = digitsValueFrom (n * 10 + (c.toNat - 48)) cs := rfl

theorem le_digitsValueFrom (n : Nat) (ds : List Char) : n ≤ digitsValueFrom n ds := by
  induction ds generalizing n with
  | nil => exact le_refl _
  | cons c cs ih =>
    rw [digitsValueFrom_cons]
    have := ih (n * 10 + (c.toNat - 48))
    omega

theorem isDigit_iff (c : Char) : isDigit c = true ↔ 48 ≤ c.toNat ∧ c.toNat ≤ 57 := by
  unfold isDigit
  exact decide_eq_true_iff

/-- On a string of digits whose value fits `uint64` the loop of `ParseUint` returns
that value and no error. -/
theorem parseUintLoop_digits (ds : List Char) (n : Nat)
    (hd : ∀ c ∈ ds, isDigit c = true) (hb : digitsValueFrom n ds ≤ maxUint64) :
    parseUintLoop ds n = (digitsValueFrom n ds, none) := by
  induction ds generalizing n with
  | nil => rfl
  | cons c cs ih =>
    have hc : 48 ≤ c.toNat ∧ c.toNat ≤ 57 := (isDigit_iff c).mp (hd c (List.mem_cons_self _ _))
    have hcs : ∀ x ∈ cs, isDigit x = true := fun x hx => hd x (List.mem_cons_of_mem _ hx)
    rw [digitsValueFrom_cons] at hb ⊢
    have hle := le_digitsValueFrom (n * 10 + (c.toNat - 48)) cs
    have hmax : maxUint64 = 18446744073709551615 := rfl
    have hcut : maxUint64 / 10 + 1 = 1844674407370955162 := by decide
    have h1 : ¬ (n ≥ maxUint64 / 10 + 1) := by rw [hcut]; omega
    have h2 : wrapUint64 (n * 10) = n * 10 := by unfold wrapUint64; omega
    have h3 : wrapUint64 (n * 10 + (c.toNat - 48)) = n * 10 + (c.toNat - 48) := by
      unfold wrapUint64; omega
    have h4 : ¬ (n * 10 + (c.toNat - 48) < n * 10 ∨ n * 10 + (c.toNat - 48) > maxUint64) := by
      omega
    rw [parseUintLoop, if_pos hc, if_neg h1]
    simp only [h2, h3]
    rw [if_neg h4]
    exact ih _ hcs hb

theorem wrapInt_fast_step (m d : Nat) :
    wrapInt (wrapInt (wrapInt (m : Int) * 10) + (d : Int))
      = wrapInt ((m * 10 + d : Nat) : Int) := by
  have h : ((m * 10 + d : Nat) : Int) = (m : Int) * 10 + (d : Int) := by push_cast; rfl
  rw [h]
  generalize (m : Int) = x
  generalize (d : Int) = y
  unfold wrapInt
  omega

/-- On a string of digits the fast loop of `Atoi` returns the value the digits
denote, reduced modulo `2^64`. -/
theorem atoiFastLoop_digits (ds : List Char) (m : Nat) (a : Int) (ha : a = wrapInt (m : Int))
    (hd : ∀ c ∈ ds, isDigit c = true) :
    atoiFastLoop ds a = some (wrapInt (digitsValueFrom m ds : Nat)) := by
  induction ds generalizing m a with
  | nil => rw [ha]; rfl
  | cons c cs ih =>
    have hc : 48 ≤ c.toNat ∧ c.toNat ≤ 57 := (isDigit_iff c).mp (hd c (List.mem_cons_self _ _))
    have hcs : ∀ x ∈ cs, isDigit x = true := fun x hx => hd x (List.mem_cons_of_mem _ hx)
    rw [atoiFastLoop, if_pos hc, digitsValueFrom_cons]
    apply ih _ _ _ hcs
    rw [ha]
    exact wrapInt_fast_step m (c.toNat - 48)

theorem ParseUint_digits (ds : List Char) (hne : ds ≠ [])
    (hd : ∀ c ∈ ds, isDigit c = true) (hb : digitsValue ds ≤ maxUint64) :
    ParseUint ds = (digitsValue ds, none) := by
  cases ds with
  | nil => exact absurd rfl hne
  | cons c cs => exact parseUintLoop_digits (c :: cs) 0 hd hb

theorem wrapInt_neg_wrapInt_natCast (V : Nat) (h : minInt ≤ -(V : Int)) :
    wrapInt (-(wrapInt (V : Int))) = -(V : Int) := by
  unfold minInt at h
  unfold wrapInt
  omega

theorem wrapInt_natCast (V : Nat) (h : (V : Int) ≤ maxInt) : wrapInt (V : Int) = (V : Int) := by
  unfold maxInt at h
  unfold wrapInt
  omega

theorem ParseInt_minus (cs : List Char) (hne : cs ≠ [])
    (hd : ∀ c ∈ cs, isDigit c = true) (hlo : minInt ≤ -(digitsValue cs : Int)) :
    ParseInt ('-' :: cs) = (-(digitsValue cs : Int), none) := by
  have hV : digitsValue cs ≤ 9223372036854775808 := by
    unfold minInt at hlo; omega
  have hPU := ParseUint_digits cs hne hd (by unfold maxUint64; omega)
  unfold ParseInt
  simp only [Char.reduceEq, if_false, if_true, hPU, decide_True]
  rw [if_neg (by simp), if_neg (by omega), wrapInt_neg_wrapInt_natCast _ hlo]

theorem ParseInt_plus (cs : List Char) (hne : cs ≠ [])
    (hd : ∀ c ∈ cs, isDigit c = true) (hhi : (digitsValue cs : Int) ≤ maxInt) :
    ParseInt ('+' :: cs) = ((digitsValue cs : Int), none) := by
  have hV : digitsValue cs ≤ 9223372036854775807 := by
    unfold maxInt at hhi; omega
  have hPU := ParseUint_digits cs hne hd (by unfold maxUint64; omega)
  unfold ParseInt
  simp only [Char.reduceEq, if_false, if_true, hPU, decide_False]
  rw [if_neg (by omega), if_neg (by simp)]
  simp only [Bool.false_eq_true, if_false]
  exact congrArg (fun x => (x, none)) (wrapInt_natCast _ hhi)

theorem ParseInt_digits (c : Char) (cs : List Char)
    (hd : ∀ x ∈ c :: cs, isDigit x = true) (hhi : (digitsValue (c :: cs) : Int) ≤ maxInt) :
    ParseInt (c :: cs) = ((digitsValue (c :: cs) : Int), none) := by
  have hV : digitsValue (c :: cs) ≤ 9223372036854775807 := by
    unfold maxInt at hhi; omega
  have hc : 48 ≤ c.toNat ∧ c.toNat ≤ 57 := (isDigit_iff c).mp (hd c (List.mem_cons_self _ _))
  have hm : c ≠ '-' := by rintro rfl; revert hc; decide
  have hp : c ≠ '+' := by rintro rfl; revert hc; decide
  have hPU := ParseUint_digits (c :: cs) (List.cons_ne_nil _ _) hd (by unfold maxUint64; omega)
  unfold ParseInt
  simp only [hm, hp, if_false, hPU, decide_False]
  rw [if_neg (by omega), if_neg (by simp)]
  simp only [Bool.false_eq_true, if_false]
  exact congrArg (fun x => (x, none)) (wrapInt_natCast _ hhi)

theorem Atoi_cons_fast (c : Char) (cs : List Char) (h : (c :: cs).length < 19) :
    Atoi (c :: cs)
      = if (c = '-' ∨ c = '+') ∧ cs.length < 1 then (0, some NumError.ErrSyntax)
        else
          match atoiFastLoop (if c = '-' ∨ c = '+' then cs else c :: cs) 0 with
          | none => (0, some NumError.ErrSyntax)
          | some n => (if c = '-' then wrapInt (-n) else n, none) := by
  unfold Atoi
  dsimp only
  rw [if_pos h]

theorem Atoi_cons_slow (c : Char) (cs : List Char) (h : ¬ (c :: cs).length < 19) :
    Atoi (c :: cs) = ParseInt (c :: cs) := by
  unfold Atoi
  dsimp only
  rw [if_neg h]

/-- On a decimal numeral whose value is in the range of `int`, `Atoi` returns that
value and a nil error. -/
theorem Atoi_decimal (t : List Char) (n : Int) (h : decimalValue t = some n)
    (hlo : minInt ≤ n) (hhi : n ≤ maxInt) : Atoi t = (n, none) := by
  cases t with
  | nil => simp [decimalValue] at h
  | cons c cs =>
    rw [decimalValue] at h
    by_cases hm : c = '-'
    · subst hm
      rw [if_pos rfl] at h
      split at h
      · rename_i hcond
        have hn : n = -(digitsValue cs : Int) := (Option.some.inj h).symm
        subst hn
        have hd : ∀ x ∈ cs, isDigit x = true := List.all_eq_true.mp hcond.2
        have hlen : ¬ cs.length < 1 := by
          have := List.length_pos.mpr hcond.1
          omega
        by_cases h1 : ('-' :: cs).length < 19
        · rw [Atoi_cons_fast _ _ h1, if_neg (fun h2 => hlen h2.2)]
          simp only [true_or, if_true]
          rw [atoiFastLoop_digits cs 0 0 rfl hd]
          exact congrArg (fun x => (x, none)) (wrapInt_neg_wrapInt_natCast _ hlo)
        · rw [Atoi_cons_slow _ _ h1]
          exact ParseInt_minus cs hcond.1 hd hlo
      · cases h
    · rw [if_neg hm] at h
      by_cases hp : c = '+'
      · subst hp
        rw [if_pos rfl] at h
        split at h
        · rename_i hcond
          have hn : n = (digitsValue cs : Int) := (Option.some.inj h).symm
          subst hn
          have hd : ∀ x ∈ cs, isDigit x = true := List.all_eq_true.mp hcond.2
          have hlen : ¬ cs.length < 1 := by
            have := List.length_pos.mpr hcond.1
            omega
          by_cases h1 : ('+' :: cs).length < 19
          · rw [Atoi_cons_fast _ _ h1, if_neg (fun h2 => hlen h2.2)]
            simp only [or_true, if_true]
            rw [atoiFastLoop_digits cs 0 0 rfl hd]
            simp only [Char.reduceEq, if_false]
            exact congrArg (fun x => (x, none)) (wrapInt_natCast _ hhi)
          · rw [Atoi_cons_slow _ _ h1]
            exact ParseInt_plus cs hcond.1 hd hhi
        · cases h
      · rw [if_neg hp] at h
        split at h
        · rename_i hcond
          have hn : n = (digitsValue (c :: cs) : Int) := (Option.some.inj h).symm
          subst hn
          have hd : ∀ x ∈ c :: cs, isDigit x = true := List.all_eq_true.mp hcond
          have hsign : ¬ (c = '-' ∨ c = '+') := fun h2 => h2.elim hm hp
          by_cases h1 : (c :: cs).length < 19
          · rw [Atoi_cons_fast _ _ h1, if_neg (fun h2 => hsign h2.1), if_neg hsign,
              atoiFastLoop_digits (c :: cs) 0 0 rfl hd]
            simp only [hm, if_false]
            exact congrArg (fun x => (x, none)) (wrapInt_natCast _ hhi)
          · rw [Atoi_cons_slow _ _ h1]
            exact ParseInt_digits c cs hd hhi
        · cases h

/-! ## `strconv.Atoi` on strings that are not numerals -/

theorem ParseInt_value_of_ErrSyntax (t : List Char)
    (h : (ParseInt t).2 = some NumError.ErrSyntax) : (ParseInt t).1 = 0 := by
  cases t with
  | nil => rfl
  | cons c cs =>
    unfold ParseInt at h ⊢
    dsimp only at h ⊢
    split at h
    · rfl
    · split_ifs at h <;> simp at h

/-- When `Atoi` reports a syntax error the value it returns is `0`. -/
theorem Atoi_value_of_ErrSyntax (t : List Char)
    (h : (Atoi t).2 = some NumError.ErrSyntax) : (Atoi t).1 = 0 := by
  cases t with
  | nil => rfl
  | cons c cs =>
    by_cases h1 : (c :: cs).length < 19
    · rw [Atoi_cons_fast _ _ h1] at h ⊢
      by_cases h2 : (c = '-' ∨ c = '+') ∧ cs.length < 1
      · rw [if_pos h2]
      · rw [if_neg h2] at h ⊢
        generalize atoiFastLoop (if c = '-' ∨ c = '+' then cs else c :: cs) 0 = r at h ⊢
        cases r with
        | none => rfl
        | some n => simp at h
    · rw [Atoi_cons_slow _ _ h1] at h ⊢
      exact ParseInt_value_of_ErrSyntax _ h

theorem atoiFastLoop_nonDigit (s : List Char) (a : Int)
    (h : ∃ c ∈ s, isDigit c = false) : atoiFastLoop s a = none := by
  induction s generalizing a with
  | nil => obtain ⟨c, hc, -⟩ := h; cases hc
  | cons c cs ih =>
    rw [atoiFastLoop]
    by_cases hc : 48 ≤ c.toNat ∧ c.toNat ≤ 57
    · rw [if_pos hc]
      apply ih
      obtain ⟨x, hx, hxd⟩ := h
      rcases List.mem_cons.mp hx with e | e
      · subst e
        rw [(isDigit_iff x).mpr hc] at hxd
        cases hxd
      · exact ⟨x, e, hxd⟩
    · rw [if_neg hc]

/-- On a string that holds a non-digit, the loop of `ParseUint` reports a syntax
error with value `0`, provided the digits before the first non-digit do not
overflow `uint64`. -/
theorem parseUintLoop_nonDigit (s : List Char) (n : Nat)
    (h : ∃ c ∈ s, isDigit c = false)
    (hb : digitsValueFrom n (s.takeWhile isDigit) ≤ maxUint64) :
    parseUintLoop s n = (0, some NumError.ErrSyntax) := by
  induction s generalizing n with
  | nil => obtain ⟨c, hc, -⟩ := h; cases hc
  | cons c cs ih =>
    rw [parseUintLoop]
    by_cases hc : 48 ≤ c.toNat ∧ c.toNat ≤ 57
    · have hcd : isDigit c = true := (isDigit_iff c).mpr hc
      rw [List.takeWhile_cons_of_pos hcd, digitsValueFrom_cons] at hb
      have hle := le_digitsValueFrom (n * 10 + (c.toNat - 48)) (cs.takeWhile isDigit)
      have hmax : maxUint64 = 18446744073709551615 := rfl
      have hcut : maxUint64 / 10 + 1 = 1844674407370955162 := by decide
      have h1 : ¬ (n ≥ maxUint64 / 10 + 1) := by rw [hcut]; omega
      have h2 : wrapUint64 (n * 10) = n * 10 := by unfold wrapUint64; omega
      have h3 : wrapUint64 (n * 10 + (c.toNat - 48)) = n * 10 + (c.toNat - 48) := by
        unfold wrapUint64; omega
      have h4 : ¬ (n * 10 + (c.toNat - 48) < n * 10
          ∨ n * 10 + (c.toNat - 48) > maxUint64) := by
        omega
      rw [if_pos hc, if_neg h1]
      simp only [h2, h3]
      rw [if_neg h4]
      apply ih _ _ hb
      obtain ⟨x, hx, hxd⟩ := h
      rcases List.mem_cons.mp hx with e | e
      · subst e
        rw [hcd] at hxd
        cases hxd
      · exact ⟨x, e, hxd⟩
    · rw [if_neg hc]

/-- A non-numeric token makes `Atoi` return `0` with a syntax error, provided the
token takes the fast path (fewer than 19 characters) or its leading digits do
not overflow `uint64` before the first offending character is reached. -/
theorem Atoi_nonNumeric (t : List Char) (hnn : nonNumeric t)
    (hb : t.length < 19 ∨ digitsValue (leadingDigits t) ≤ maxUint64) :
    Atoi t = (0, some NumError.ErrSyntax) := by
  obtain ⟨x, hx, hxp, hxm, hxd⟩ := hnn
  cases t with
  | nil => cases hx
  | cons c cs =>
    have hmem : ∀ s1 : List Char, (s1 = cs ∧ (c = '+' ∨ c = '-')) ∨ s1 = c :: cs →
        ∃ y ∈ s1, isDigit y = false := by
      intro s1 hs1
      rcases hs1 with ⟨e, hsign⟩ | e
      · subst e
        rcases List.mem_cons.mp hx with e2 | e2
        · subst e2
          rcases hsign with e3 | e3
          · exact absurd e3 hxp
          · exact absurd e3 hxm
        · exact ⟨x, e2, hxd⟩
      · subst e
        exact ⟨x, hx, hxd⟩
    by_cases h1 : (c :: cs).length < 19
    · rw [Atoi_cons_fast _ _ h1]
      by_cases h2 : (c = '-' ∨ c = '+') ∧ cs.length < 1
      · rw [if_pos h2]
      · rw [if_neg h2]
        have hnone : atoiFastLoop (if c = '-' ∨ c = '+' then cs else c :: cs) 0 = none := by
          apply atoiFastLoop_nonDigit
          apply hmem
          by_cases h3 : c = '-' ∨ c = '+'
          · rw [if_pos h3]
            exact Or.inl ⟨rfl, h3.symm⟩
          · rw [if_neg h3]
            exact Or.inr rfl
        rw [hnone]
    · rw [Atoi_cons_slow _ _ h1]
      have hb2 : digitsValue (leadingDigits (c :: cs)) ≤ maxUint64 := by
        rcases hb with hb | hb
        · exact absurd hb h1
        · exact hb
      unfold leadingDigits at hb2
      dsimp only at hb2
      unfold ParseInt
      dsimp only
      by_cases hp : c = '+'
      · subst hp
        simp only [true_or, if_true] at hb2
        simp only [if_true]
        have hex := hmem cs (Or.inl ⟨rfl, Or.inl rfl⟩)
        have hne : cs ≠ [] := by
          rintro rfl
          obtain ⟨y, hy, -⟩ := hex
          cases hy
        have hPU : ParseUint cs = (0, some NumError.ErrSyntax) := by
          cases cs with
          | nil => exact absurd rfl hne
          | cons d ds => exact parseUintLoop_nonDigit (d :: ds) 0 hex hb2
        rw [hPU]
      · by_cases hm : c = '-'
        · subst hm
          simp only [or_true, if_true] at hb2
          simp only [Char.reduceEq, if_false, if_true]
          have hex := hmem cs (Or.inl ⟨rfl, Or.inr rfl⟩)
          have hne : cs ≠ [] := by
            rintro rfl
            obtain ⟨y, hy, -⟩ := hex
            cases hy
          have hPU : ParseUint cs = (0, some NumError.ErrSyntax) := by
            cases cs with
            | nil => exact absurd rfl hne
            | cons d ds => exact parseUintLoop_nonDigit (d :: ds) 0 hex hb2
          rw [hPU]
        · simp only [hp, hm, or_self, if_false] at hb2
          simp only [hp, hm, if_false]
          have hPU : ParseUint (c :: cs) = (0, some NumError.ErrSyntax) :=
            parseUintLoop_nonDigit (c :: cs) 0 (hmem _ (Or.inr rfl)) hb2
          rw [hPU]

/-! ## Lines of the shape `label tok unit` -/

theorem Counter.label_not_hasSpace (c : Counter) : ¬ hasSpace c.label := by
  cases c <;> decide

theorem Counter.label_mem_recognisedLabels (c : Counter) : c.label ∈ recognisedLabels := by
  cases c <;> simp [recognisedLabels, Counter.all]

theorem hasSpace_fieldLine (l t u : List Char) : hasSpace (fieldLine l t u) := by
  simp [hasSpace, fieldLine]

theorem firstToken_fieldLine (l t u : List Char) (hl : ¬ hasSpace l) :
    firstToken (fieldLine l t u) = l :=
  firstToken_append_space l _ hl

theorem Split_fieldLine (l t u : List Char) (hl : ¬ hasSpace l) (ht : ¬ hasSpace t)
    (hu : ¬ hasSpace u) : Split (fieldLine l t u) = [l, t, u] := by
  rw [fieldLine, Split_append_space _ _ hl, Split_append_space _ _ ht,
    Split_of_not_hasSpace _ hu]

theorem valueToken_fieldLine (l t u : List Char) (hl : ¬ hasSpace l) (ht : ¬ hasSpace t)
    (hu : ¬ hasSpace u) : valueToken (fieldLine l t u) = t := by
  unfold valueToken
  rw [Split_fieldLine l t u hl ht hu]
  rfl

theorem isDigit_space : isDigit ' ' = false := by decide

theorem not_hasSpace_of_decimalValue (t : List Char) (n : Int)
    (h : decimalValue t = some n) : ¬ hasSpace t := by
  unfold hasSpace
  intro hsp
  cases t with
  | nil => cases hsp
  | cons c cs =>
    rw [decimalValue] at h
    have key : ∀ s : List Char, s.all isDigit = true → ' ' ∉ s := by
      intro s hs hmem
      have := List.all_eq_true.mp hs ' ' hmem
      rw [isDigit_space] at this
      cases this
    by_cases hm : c = '-'
    · rw [if_pos hm] at h
      split at h
      · rename_i hcond
        rcases List.mem_cons.mp hsp with e | e
        · rw [hm] at e
          revert e
          decide
        · exact key cs hcond.2 e
      · cases h
    · rw [if_neg hm] at h
      by_cases hp : c = '+'
      · rw [if_pos hp] at h
        split at h
        · rename_i hcond
          rcases List.mem_cons.mp hsp with e | e
          · rw [hp] at e
            revert e
            decide
          · exact key cs hcond.2 e
        · cases h
      · rw [if_neg hp] at h
        split at h
        · rename_i hcond
          exact key (c :: cs) hcond hsp
        · cases h

/-- The loop body on a line `label tok unit` of a recognised label: `Atoi`'s value
for `tok` is added to the label's counter. -/
theorem lineStep_fieldLine {FS : Type} (ps : ProcSmap FS) (c : Counter) (t u : List Char)
    (ht : ¬ hasSpace t) (hu : ¬ hasSpace u) :
    lineStep ps (fieldLine c.label t u) = some (switchLabel ps c.label (Atoi t).1) := by
  rw [lineStep_of_hasSpace ps _ (hasSpace_fieldLine _ _ _),
    firstToken_fieldLine _ _ _ c.label_not_hasSpace,
    valueToken_fieldLine _ _ _ c.label_not_hasSpace ht hu]

/-- A line `label tok unit` on whose token `Atoi` returns `0` leaves a snapshot of
in-range counters as it is. -/
theorem lineStep_fieldLine_zero {FS : Type} (ps : ProcSmap FS) (hps : ps.InRange)
    (c : Counter) (t u : List Char) (ht : ¬ hasSpace t) (hu : ¬ hasSpace u)
    (h0 : (Atoi t).1 = 0) : lineStep ps (fieldLine c.label t u) = some ps := by
  rw [lineStep_fieldLine ps c t u ht hu, h0, switchLabel_zero ps _ hps]

theorem scanLines_InRange {FS : Type} (lines : List (List Char)) (ps ps1 : ProcSmap FS)
    (hps : ps.InRange) (h : scanLines ps lines = some ps1) : ps1.InRange := by
  induction lines generalizing ps with
  | nil =>
    rw [scanLines] at h
    cases h
    exact hps
  | cons text rest ih =>
    rw [scanLines] at h
    by_cases hsp : hasSpace text
    · rw [lineStep_of_hasSpace ps text hsp] at h
      exact ih _ (switchLabel_InRange _ _ _ hps) h
    · rw [lineStep_of_not_hasSpace ps text hsp] at h
      cases h

/-- A line that leaves every in-range snapshot as it is can be removed from the
input without changing what `NewSmap` does. -/
theorem NewSmap_neutral_line {FS : Type} [Inhabited FS] (p : Proc FS)
    (comm : Except GoError String) (before after : List (List Char))
    (scanErr : Option GoError) (text : List Char)
    (hneutral : ∀ ps : ProcSmap FS, ps.InRange → lineStep ps text = some ps) :
    NewSmap p { openSmaps := .ok { lines := before ++ text :: after, scanErr := scanErr },
                comm := comm }
      = NewSmap p { openSmaps := .ok { lines := before ++ after, scanErr := scanErr },
                    comm := comm } := by
  have hscan : ∀ ps : ProcSmap FS, ps.InRange →
      scanLines ps (before ++ text :: after) = scanLines ps (before ++ after) := by
    intro ps hps
    rw [scanLines_append, scanLines_append]
    cases hb : scanLines ps before with
    | none => rfl
    | some ps1 =>
      simp only [Option.some_bind]
      rw [scanLines, hneutral ps1 (scanLines_InRange before ps ps1 hps hb)]
  unfold NewSmap
  cases comm with
  | error e => rfl
  | ok c =>
    have h := hscan _ (initialSnapshot_InRange p c)
    unfold initialSnapshot at h
    dsimp only
    rw [h]

/-! ## Values that fail to parse -/

/-- C5 (as stated, refuted): a digit string one above the largest `int`, or one below
the smallest, fails to parse (range error), yet the line does not add zero:
`Atoi` returns the nearest bound and the loop adds it. -/
theorem C5_counterexample_range_error_is_clamped :
    (Atoi "9223372036854775808".toList).2 = some NumError.ErrRange
    ∧ lineStep (ProcSmap.zero String)
        (fieldLine Counter.Rss.label "9223372036854775808".toList "kB".toList)
      = some { ProcSmap.zero String with Rss := 9223372036854775807 }
    ∧ (Atoi "-9223372036854775809".toList).2 = some NumError.ErrRange
    ∧ lineStep (ProcSmap.zero String)
        (fieldLine Counter.Rss.label "-9223372036854775809".toList "kB".toList)
      = some { ProcSmap.zero String with Rss := -9223372036854775808 } := by
  decide

/-- C5 (amended): for every recognised label and every value token on which `Atoi`
reports a syntax error, the value used is `0` and the line `L t unit` leaves
the snapshot, and so the label's counter, as it was. -/
theorem C5_syntax_error_adds_zero {FS : Type} (ps : ProcSmap FS) (hps : ps.InRange)
    (c : Counter) (t u : List Char) (ht : ¬ hasSpace t) (hu : ¬ hasSpace u)
    (herr : (Atoi t).2 = some NumError.ErrSyntax) :
    (Atoi t).1 = 0 ∧ lineStep ps (fieldLine c.label t u) = some ps :=
  ⟨Atoi_value_of_ErrSyntax t herr,
   lineStep_fieldLine_zero ps hps c t u ht hu (Atoi_value_of_ErrSyntax t herr)⟩

theorem C5_syntax_error_adds_zero_witness :
    (Atoi "abc".toList).2 = some NumError.ErrSyntax
    ∧ ((Atoi "abc".toList).1 = 0
        ∧ lineStep (ProcSmap.zero String)
            (fieldLine Counter.Rss.label "abc".toList "kB".toList)
          = some (ProcSmap.zero String)) :=
  ⟨by decide,
   C5_syntax_error_adds_zero (ProcSmap.zero String) (by intro c; cases c <;> decide)
     Counter.Rss "abc".toList "kB".toList (by decide) (by decide) (by decide)⟩

/-- C6 (as stated, refuted): the token `99999999999999999999x` is non-numeric, yet the
line `Rss: 99999999999999999999x kB` adds `2^63 - 1` to `Rss`: the digits
overflow before the `x` is reached, and `Atoi` returns the largest `int`. The
result differs from that of the input with the line removed. -/
theorem C6_counterexample_overflow_before_bad_character :
    nonNumeric "99999999999999999999x".toList
    ∧ NewSmap ({ PID := 4242, fs := "/proc" } : Proc String)
        (World.reading "bash"
          [fieldLine Counter.Rss.label "99999999999999999999x".toList "kB".toList,
           "Pss: 50 kB".toList])
      = Outcome.ret
          { PID := 4242, Comm := "bash", Size := 0, Rss := 9223372036854775807, Pss := 50,
            Shared_Clean := 0, Shared_Dirty := 0, Private_Clean := 0,
            Private_Dirty := 0, Referenced := 0, Anonymous := 0, Swap := 0,
            fs := "/proc" } none
    ∧ NewSmap ({ PID := 4242, fs := "/proc" } : Proc String)
        (World.reading "bash" ["Pss: 50 kB".toList])
      = Outcome.ret
          { PID := 4242, Comm := "bash", Size := 0, Rss := 0, Pss := 50,
            Shared_Clean := 0, Shared_Dirty := 0, Private_Clean := 0,
            Private_Dirty := 0, Referenced := 0, Anonymous := 0, Swap := 0,
            fs := "/proc" } none :=
  ⟨⟨'x', by decide, by decide, by decide, by decide⟩, by decide, by decide⟩

/-- C6 (amended): for every recognised label and every non-numeric value token that is
shorter than 19 characters, or whose digits before the first offending
character do not overflow `uint64`, the line `L t unit` leaves every snapshot
as it is, and `NewSmap` does on the whole input exactly what it does on the
input with that line removed. -/
theorem C6_nonnumeric_value_contributes_zero {FS : Type} [Inhabited FS] (p : Proc FS)
    (comm : Except GoError String) (before after : List (List Char))
    (scanErr : Option GoError) (c : Counter) (t u : List Char)
    (hnn : nonNumeric t) (ht : ¬ hasSpace t) (hu : ¬ hasSpace u)
    (hb : t.length < 19 ∨ digitsValue (leadingDigits t) ≤ maxUint64) :
    (∀ ps : ProcSmap FS, ps.InRange → lineStep ps (fieldLine c.label t u) = some ps)
    ∧ NewSmap p { openSmaps := .ok { lines := before ++ fieldLine c.label t u :: after,
                                     scanErr := scanErr },
                  comm := comm }
      = NewSmap p { openSmaps := .ok { lines := before ++ after, scanErr := scanErr },
                    comm := comm } := by
  have h0 : (Atoi t).1 = 0 := by rw [Atoi_nonNumeric t hnn hb]
  have hstep : ∀ ps : ProcSmap FS, ps.InRange →
      lineStep ps (fieldLine c.label t u) = some ps :=
    fun ps hps => lineStep_fieldLine_zero ps hps c t u ht hu h0
  exact ⟨hstep, NewSmap_neutral_line p comm before after scanErr _ hstep⟩

theorem C6_nonnumeric_value_contributes_zero_witness :
    nonNumeric "abc".toList
    ∧ ((∀ ps : ProcSmap String, ps.InRange →
          lineStep ps (fieldLine Counter.Rss.label "abc".toList "kB".toList) = some ps)
      ∧ NewSmap ({ PID := 4242, fs := "/proc" } : Proc String)
          { openSmaps := .ok
              { lines := ["Rss: 100 kB".toList]
                  ++ fieldLine Counter.Rss.label "abc".toList "kB".toList
                      :: ["Pss: 50 kB".toList],
                scanErr := none },
            comm := .ok "bash" }
        = NewSmap ({ PID := 4242, fs := "/proc" } : Proc String)
          { openSmaps := .ok
              { lines := ["Rss: 100 kB".toList] ++ ["Pss: 50 kB".toList],
                scanErr := none },
            comm := .ok "bash" }) :=
  ⟨⟨'a', by decide, by decide, by decide, by decide⟩,
   C6_nonnumeric_value_contributes_zero ({ PID := 4242, fs := "/proc" } : Proc String)
     (.ok "bash") ["Rss: 100 kB".toList] ["Pss: 50 kB".toList] none Counter.Rss
     "abc".toList "kB".toList ⟨'a', by decide, by decide, by decide, by decide⟩
     (by decide) (by decide) (Or.inl (by decide))⟩

/-! ## The example scenario -/

theorem lineStep_Rss_100 {FS : Type} (ps : ProcSmap FS) :
    lineStep ps "Rss: 100 kB".toList = some (switchLabel ps Counter.Rss.label 100) :=
  lineStep_fieldLine ps Counter.Rss "100".toList "kB".toList (by decide) (by decide)

theorem lineStep_Pss_50 {FS : Type} (ps : ProcSmap FS) :
    lineStep ps "Pss: 50 kB".toList = some (switchLabel ps Counter.Pss.label 50) :=
  lineStep_fieldLine ps Counter.Pss "50".toList "kB".toList (by decide) (by decide)

theorem lineStep_Anonymous_20 {FS : Type} (ps : ProcSmap FS) :
    lineStep ps "Anonymous: 20 kB".toList
      = some (switchLabel ps Counter.Anonymous.label 20) :=
  lineStep_fieldLine ps Counter.Anonymous "20".toList "kB".toList (by decide) (by decide)

/-- C2: for two mapping blocks, each a header line followed by `Rss: 100 kB` and
`Pss: 50 kB`, one of them (the second or the first) with an extra
`Anonymous: 20 kB`, `NewSmap` succeeds with `Rss = 200`, `Pss = 100`,
`Anonymous = 20` and every other counter `0`, and `ProportionalMemoryBytes` of
that snapshot is `102400`.  The header lines are arbitrary lines with a space
whose first token is not a recognised label. -/
theorem C2_example_two_blocks {FS : Type} [Inhabited FS] (p : Proc FS) (comm : String)
    (h1 h2 : List Char) (hs1 : hasSpace h1) (hl1 : firstToken h1 ∉ recognisedLabels)
    (hs2 : hasSpace h2) (hl2 : firstToken h2 ∉ recognisedLabels) :
    NewSmap p
      (World.reading comm
        [h1, "Rss: 100 kB".toList, "Pss: 50 kB".toList,
         h2, "Rss: 100 kB".toList, "Pss: 50 kB".toList, "Anonymous: 20 kB".toList])
      = Outcome.ret
          { PID := p.PID, Comm := comm, Size := 0, Rss := 200, Pss := 100,
            Shared_Clean := 0, Shared_Dirty := 0, Private_Clean := 0,
            Private_Dirty := 0, Referenced := 0, Anonymous := 20, Swap := 0,
            fs := p.fs } none
    ∧ NewSmap p
      (World.reading comm
        [h1, "Rss: 100 kB".toList, "Pss: 50 kB".toList, "Anonymous: 20 kB".toList,
         h2, "Rss: 100 kB".toList, "Pss: 50 kB".toList])
      = Outcome.ret
          { PID := p.PID, Comm := comm, Size := 0, Rss := 200, Pss := 100,
            Shared_Clean := 0, Shared_Dirty := 0, Private_Clean := 0,
            Private_Dirty := 0, Referenced := 0, Anonymous := 20, Swap := 0,
            fs := p.fs } none
    ∧ ProportionalMemoryBytes
          ({ PID := p.PID, Comm := comm, Size := 0, Rss := 200, Pss := 100,
             Shared_Clean := 0, Shared_Dirty := 0, Private_Clean := 0,
             Private_Dirty := 0, Referenced := 0, Anonymous := 20, Swap := 0,
             fs := p.fs } : ProcSmap FS) = 102400 := by
  refine ⟨?_, ?_, ?_⟩
  · rw [NewSmap_reading]
    simp only [scanLines, lineStep_unrecognised _ _ hs1 hl1,
      lineStep_unrecognised _ _ hs2 hl2, lineStep_Rss_100, lineStep_Pss_50,
      lineStep_Anonymous_20]
    rfl
  · rw [NewSmap_reading]
    simp only [scanLines, lineStep_unrecognised _ _ hs1 hl1,
      lineStep_unrecognised _ _ hs2 hl2, lineStep_Rss_100, lineStep_Pss_50,
      lineStep_Anonymous_20]
    rfl
  · rfl

theorem C2_example_two_blocks_witness :
    NewSmap ({ PID := 4242, fs := "/proc" } : Proc String)
      (World.reading "bash"
        ["00400000-0048a000 r-xp 00000000 fd:03 960637 /bin/bash".toList,
         "Rss: 100 kB".toList, "Pss: 50 kB".toList,
         "0048b000-0048c000 rw-p 0008a000 fd:03 960637 /bin/bash".toList,
         "Rss: 100 kB".toList, "Pss: 50 kB".toList, "Anonymous: 20 kB".toList])
      = Outcome.ret
          { PID := 4242, Comm := "bash", Size := 0, Rss := 200, Pss := 100,
            Shared_Clean := 0, Shared_Dirty := 0, Private_Clean := 0,
            Private_Dirty := 0, Referenced := 0, Anonymous := 20, Swap := 0,
            fs := "/proc" } none
    ∧ NewSmap ({ PID := 4242, fs := "/proc" } : Proc String)
      (World.reading "bash"
        ["00400000-0048a000 r-xp 00000000 fd:03 960637 /bin/bash".toList,
         "Rss: 100 kB".toList, "Pss: 50 kB".toList, "Anonymous: 20 kB".toList,
         "0048b000-0048c000 rw-p 0008a000 fd:03 960637 /bin/bash".toList,
         "Rss: 100 kB".toList, "Pss: 50 kB".toList])
      = Outcome.ret
          { PID := 4242, Comm := "bash", Size := 0, Rss := 200, Pss := 100,
            Shared_Clean := 0, Shared_Dirty := 0, Private_Clean := 0,
            Private_Dirty := 0, Referenced := 0, Anonymous := 20, Swap := 0,
            fs := "/proc" } none
    ∧ ProportionalMemoryBytes
          ({ PID := 4242, Comm := "bash", Size := 0, Rss := 200, Pss := 100,
             Shared_Clean := 0, Shared_Dirty := 0, Private_Clean := 0,
             Private_Dirty := 0, Referenced := 0, Anonymous := 20, Swap := 0,
             fs := "/proc" } : ProcSmap String) = 102400 :=
  C2_example_two_blocks ({ PID := 4242, fs := "/proc" } : Proc String) "bash"
    "00400000-0048a000 r-xp 00000000 fd:03 960637 /bin/bash".toList
    "0048b000-0048c000 rw-p 0008a000 fd:03 960637 /bin/bash".toList
    (by decide) (by decide) (by decide) (by decide)

/-! ## When the loop body panics -/

theorem dropLast_Split_eq_nil_iff (text : List Char) :
    (Split text).dropLast = [] ↔ ¬ hasSpace text := by
  constructor
  · intro h hsp
    obtain ⟨t, ts, hs⟩ := Split_of_hasSpace text hsp
    rw [hs] at h
    cases h
  · intro h
    rw [Split_of_not_hasSpace text h]
    rfl

/-- C17: the loop body panics if and only if the line has no space (the empty line
included): once the split has lost its last element the token list is empty
exactly in that case, and on every line with a space both `st[len(st)-1]` and
`st[0]` are in bounds (they are the value token and the first token). -/
theorem C17_panic_iff_no_space {FS : Type} (ps : ProcSmap FS) (text : List Char) :
    (lineStep ps text = none ↔ ¬ hasSpace text)
    ∧ (¬ hasSpace [])
    ∧ ((Split text).dropLast = [] ↔ ¬ hasSpace text)
    ∧ (hasSpace text →
        0 < (Split text).dropLast.length
        ∧ (Split text).dropLast.head? = some (firstToken text)
        ∧ (Split text).dropLast.getLast? = some (valueToken text)) := by
  refine ⟨?_, by decide, dropLast_Split_eq_nil_iff text, ?_⟩
  · constructor
    · intro h hsp
      rw [lineStep_of_hasSpace ps text hsp] at h
      cases h
    · exact lineStep_of_not_hasSpace ps text
  · intro hsp
    obtain ⟨t, ts, hs⟩ := Split_of_hasSpace text hsp
    have hd : (Split text).dropLast = firstToken text :: (t :: ts).dropLast := by
      rw [hs]; rfl
    refine ⟨?_, ?_, ?_⟩
    · rw [hd]; exact Nat.succ_pos _
    · rw [hd]; rfl
    · unfold valueToken
      rw [hd]
      cases hl : (firstToken text :: (t :: ts).dropLast).getLast? with
      | none => simp at hl
      | some y => rfl

/-! ## Process identity and command name -/

theorem lineStep_frame {FS : Type} (ps ps1 : ProcSmap FS) (text : List Char)
    (h : lineStep ps text = some ps1) :
    ps1.PID = ps.PID ∧ ps1.Comm = ps.Comm ∧ ps1.fs = ps.fs := by
  by_cases hsp : hasSpace text
  · rw [lineStep_of_hasSpace ps text hsp] at h
    cases h
    exact ⟨switchLabel_PID _ _ _, switchLabel_Comm _ _ _, switchLabel_fs _ _ _⟩
  · rw [lineStep_of_not_hasSpace ps text hsp] at h
    cases h

theorem scanLines_frame {FS : Type} (lines : List (List Char)) (ps ps1 : ProcSmap FS)
    (h : scanLines ps lines = some ps1) :
    ps1.PID = ps.PID ∧ ps1.Comm = ps.Comm ∧ ps1.fs = ps.fs := by
  induction lines generalizing ps with
  | nil =>
    rw [scanLines] at h
    cases h
    exact ⟨rfl, rfl, rfl⟩
  | cons text rest ih =>
    rw [scanLines] at h
    cases hl : lineStep ps text with
    | none => rw [hl] at h; cases h
    | some ps2 =>
      rw [hl] at h
      obtain ⟨h1, h2, h3⟩ := lineStep_frame ps ps2 text hl
      obtain ⟨k1, k2, k3⟩ := ih ps2 h
      exact ⟨k1.trans h1, k2.trans h2, k3.trans h3⟩

/-- C19: whenever `NewSmap` succeeds, the snapshot's `PID` is `p.PID` and its `Comm`
is the string the command-name lookup returned, whatever lines were read. -/
theorem C19_pid_and_comm_untouched {FS : Type} [Inhabited FS] (p : Proc FS) (w : World)
    (ps : ProcSmap FS) (h : NewSmap p w = Outcome.ret ps none) :
    ps.PID = p.PID ∧ w.comm = .ok ps.Comm := by
  unfold NewSmap at h
  split at h
  · cases h
  · split at h
    · cases h
    · rename_i file hopen comm hcomm
      dsimp only at h
      split at h
      · cases h
      · rename_i ps1 hscan
        split at h
        · cases h
        · cases h
          obtain ⟨h1, h2, -⟩ := scanLines_frame _ _ _ hscan
          exact ⟨h1, by rw [hcomm, h2]⟩

theorem C19_pid_and_comm_untouched_witness :
    NewSmap ({ PID := 4242, fs := "/proc" } : Proc String)
        (World.reading "bash" ["PID: 7 kB".toList, "Comm: 9 kB".toList, "Rss: 1 kB".toList])
      = Outcome.ret
          { PID := 4242, Comm := "bash", Size := 0, Rss := 1, Pss := 0,
            Shared_Clean := 0, Shared_Dirty := 0, Private_Clean := 0,
            Private_Dirty := 0, Referenced := 0, Anonymous := 0, Swap := 0,
            fs := "/proc" } none
    ∧ ((4242 : Int) = 4242
        ∧ (World.reading "bash"
            ["PID: 7 kB".toList, "Comm: 9 kB".toList, "Rss: 1 kB".toList]).comm
          = .ok "bash") :=
  ⟨by decide,
   C19_pid_and_comm_untouched ({ PID := 4242, fs := "/proc" } : Proc String)
     (World.reading "bash" ["PID: 7 kB".toList, "Comm: 9 kB".toList, "Rss: 1 kB".toList])
     { PID := 4242, Comm := "bash", Size := 0, Rss := 1, Pss := 0,
       Shared_Clean := 0, Shared_Dirty := 0, Private_Clean := 0,
       Private_Dirty := 0, Referenced := 0, Anonymous := 0, Swap := 0,
       fs := "/proc" } (by decide)⟩

/-! ## A successful scan has indexed every line -/

theorem scanLines_some_hasSpace {FS : Type} (lines : List (List Char)) (ps ps1 : ProcSmap FS)
    (h : scanLines ps lines = some ps1) : ∀ text ∈ lines, hasSpace text := by
  induction lines generalizing ps with
  | nil => intro text ht; cases ht
  | cons t rest ih =>
    rw [scanLines] at h
    by_cases hsp : hasSpace t
    · rw [lineStep_of_hasSpace ps t hsp] at h
      intro text ht
      rcases List.mem_cons.mp ht with e | e
      · rw [e]; exact hsp
      · exact ih _ h text e
    · rw [lineStep_of_not_hasSpace ps t hsp] at h
      cases h

theorem hasSpace_of_NewSmap_reading {FS : Type} [Inhabited FS] (p : Proc FS) (comm : String)
    (lines : List (List Char)) (ps : ProcSmap FS)
    (h : NewSmap p (World.reading comm lines) = Outcome.ret ps none) :
    ∀ text ∈ lines, hasSpace text := by
  rw [NewSmap_reading] at h
  cases hs : scanLines (initialSnapshot p comm) lines with
  | none => rw [hs] at h; cases h
  | some ps1 => exact scanLines_some_hasSpace lines _ ps1 hs

/-! ## Dependence on the lines and their order -/

/-- The counters `NewSmap` returns are determined by the lines alone: two successful
runs on the same lines agree on every counter, whatever the process and the
command name. -/
theorem NewSmap_counters_depend_on_lines {FS : Type} [Inhabited FS] (p p1 : Proc FS)
    (comm comm1 : String) (lines : List (List Char)) (ps ps1 : ProcSmap FS)
    (h : NewSmap p (World.reading comm lines) = Outcome.ret ps none)
    (h1 : NewSmap p1 (World.reading comm1 lines) = Outcome.ret ps1 none) :
    ∀ c, ps.get c = ps1.get c := by
  intro c
  have hsp := hasSpace_of_NewSmap_reading p comm lines ps h
  obtain ⟨q, hq, -, -, -, hget⟩ := NewSmap_of_hasSpace p comm lines hsp
  obtain ⟨q1, hq1, -, -, -, hget1⟩ := NewSmap_of_hasSpace p1 comm1 lines hsp
  rw [hq] at h
  rw [hq1] at h1
  cases h
  cases h1
  rw [hget c, hget1 c]

/-- C14: permuting the lines does not change the result.  For every list `A` on which
the loop body does not fail and every permutation `B` of `A`, `NewSmap`
succeeds on both and the two snapshots are equal, in particular in all ten
counters. -/
theorem C14_permutation_invariant {FS : Type} [Inhabited FS] (p : Proc FS)
    (comm : String) (A B : List (List Char))
    (hA : ∀ text ∈ A, ∀ ps : ProcSmap FS, lineStep ps text ≠ none)
    (hperm : List.Perm A B) :
    ∃ pa pb : ProcSmap FS,
      NewSmap p (World.reading comm A) = Outcome.ret pa none
      ∧ NewSmap p (World.reading comm B) = Outcome.ret pb none
      ∧ (∀ c, pa.get c = pb.get c) ∧ pa = pb := by
  have hA1 : ∀ text ∈ A, hasSpace text := fun text ht =>
    hasSpace_of_lineStep_ne_none (initialSnapshot p comm) text (hA text ht _)
  have hB1 : ∀ text ∈ B, hasSpace text := fun text ht =>
    hA1 text (hperm.mem_iff.mpr ht)
  obtain ⟨pa, hpa, ha1, ha2, ha3, hga⟩ := NewSmap_of_hasSpace p comm A hA1
  obtain ⟨pb, hpb, hb1, hb2, hb3, hgb⟩ := NewSmap_of_hasSpace p comm B hB1
  have hget : ∀ c, pa.get c = pb.get c := by
    intro c
    rw [hga c, hgb c, (hperm.map (lineContribution c)).sum_eq]
  refine ⟨pa, pb, hpa, hpb, hget, ?_⟩
  exact ProcSmap.ext_get pa pb (ha1.trans hb1.symm) (ha2.trans hb2.symm)
    (ha3.trans hb3.symm) hget

theorem C14_permutation_invariant_witness :
    ∃ pa pb : ProcSmap String,
      NewSmap ({ PID := 4242, fs := "/proc" } : Proc String)
          (World.reading "bash" ["Rss: 100 kB".toList, "Pss: 50 kB".toList])
        = Outcome.ret pa none
      ∧ NewSmap ({ PID := 4242, fs := "/proc" } : Proc String)
          (World.reading "bash" ["Pss: 50 kB".toList, "Rss: 100 kB".toList])
        = Outcome.ret pb none
      ∧ (∀ c, pa.get c = pb.get c) ∧ pa = pb :=
  C14_permutation_invariant ({ PID := 4242, fs := "/proc" } : Proc String) "bash"
    ["Rss: 100 kB".toList, "Pss: 50 kB".toList]
    ["Pss: 50 kB".toList, "Rss: 100 kB".toList]
    (by
      intro text ht ps
      rw [lineStep_of_hasSpace ps text (by
        simp only [List.mem_cons, List.mem_singleton, List.not_mem_nil, or_false] at ht
        rcases ht with h | h <;> (subst h; decide))]
      exact Option.some_ne_none _)
    (List.Perm.swap _ _ _)

/-! ## Non-negative values -/

/-- On a line that carries a non-negative value in `int` range the loop adds exactly
that value, which is not negative. -/
theorem lineContribution_of_carriesNonNegativeValue (text : List Char)
    (h : carriesNonNegativeValue text) (c : Counter) :
    lineContribution c text = carriedValue c text ∧ 0 ≤ carriedValue c text := by
  unfold lineContribution carriedValue
  by_cases hl : firstToken text = c.label
  · rw [if_pos hl, if_pos hl]
    obtain ⟨n, hval, h0, hhi⟩ := h (hl ▸ c.label_mem_recognisedLabels)
    have hlo : minInt ≤ n := le_trans (by decide) h0
    rw [Atoi_decimal _ n hval hlo hhi, hval]
    exact ⟨rfl, h0⟩
  · rw [if_neg hl, if_neg hl]
    exact ⟨rfl, le_refl _⟩

/-- C13 (as stated, refuted): both lines carry a non-negative value that fits `int`,
yet their sum wraps around and `NewSmap` returns a negative `Rss`. -/
theorem C13_counterexample_sum_wraps_negative :
    (∀ text ∈ ["Rss: 9223372036854775807 kB".toList, "Rss: 1 kB".toList],
        carriesNonNegativeValue text)
    ∧ NewSmap ({ PID := 4242, fs := "/proc" } : Proc String)
        (World.reading "bash" ["Rss: 9223372036854775807 kB".toList, "Rss: 1 kB".toList])
      = Outcome.ret
          { PID := 4242, Comm := "bash", Size := 0, Rss := -9223372036854775808, Pss := 0,
            Shared_Clean := 0, Shared_Dirty := 0, Private_Clean := 0,
            Private_Dirty := 0, Referenced := 0, Anonymous := 0, Swap := 0,
            fs := "/proc" } none
    ∧ (-9223372036854775808 : Int) < 0 := by
  refine ⟨?_, by decide, by decide⟩
  intro text ht
  simp only [List.mem_cons, List.mem_singleton, List.not_mem_nil, or_false] at ht
  rcases ht with h | h
  · subst h
    exact fun _ => ⟨9223372036854775807, by decide, by decide, by decide⟩
  · subst h
    exact fun _ => ⟨1, by decide, by decide, by decide⟩

/-- C13 (amended): if every recognised-label line carries a non-negative decimal
integer that fits `int`, and for each counter the sum of the values carried
for it does not exceed the largest `int`, then every counter of the snapshot
`NewSmap` returns is that sum and is non-negative. -/
theorem C13_counters_nonnegative {FS : Type} [Inhabited FS] (p : Proc FS) (comm : String)
    (lines : List (List Char)) (ps : ProcSmap FS)
    (hval : ∀ text ∈ lines, carriesNonNegativeValue text)
    (hsum : ∀ c : Counter, (lines.map (carriedValue c)).sum ≤ maxInt)
    (hret : NewSmap p (World.reading comm lines) = Outcome.ret ps none) :
    ∀ c, 0 ≤ ps.get c ∧ ps.get c = (lines.map (carriedValue c)).sum := by
  intro c
  have hsp := hasSpace_of_NewSmap_reading p comm lines ps hret
  obtain ⟨ps1, hps1, -, -, -, hget⟩ := NewSmap_of_hasSpace p comm lines hsp
  rw [hps1] at hret
  cases hret
  have hmap : lines.map (lineContribution c) = lines.map (carriedValue c) :=
    List.map_congr_left (fun text ht =>
      (lineContribution_of_carriesNonNegativeValue text (hval text ht) c).1)
  have hnn : 0 ≤ (lines.map (carriedValue c)).sum := by
    apply List.sum_nonneg
    intro x hx
    obtain ⟨text, ht, rfl⟩ := List.mem_map.mp hx
    exact (lineContribution_of_carriesNonNegativeValue text (hval text ht) c).2
  have heq : ps.get c = (lines.map (carriedValue c)).sum := by
    rw [hget c, hmap]
    exact wrapInt_of_inRange (le_trans (by decide) hnn) (hsum c)
  exact ⟨heq ▸ hnn, heq⟩

theorem C13_counters_nonnegative_witness :
    ∃ ps : ProcSmap String,
      NewSmap ({ PID := 4242, fs := "/proc" } : Proc String)
          (World.reading "bash"
            ["Rss: 100 kB".toList, "VmFlags: rd ex".toList, "Rss: 7 kB".toList])
        = Outcome.ret ps none
      ∧ ∀ c, 0 ≤ ps.get c
          ∧ ps.get c
            = (["Rss: 100 kB".toList, "VmFlags: rd ex".toList, "Rss: 7 kB".toList].map
                (carriedValue c)).sum :=
  ⟨{ PID := 4242, Comm := "bash", Size := 0, Rss := 107, Pss := 0,
     Shared_Clean := 0, Shared_Dirty := 0, Private_Clean := 0,
     Private_Dirty := 0, Referenced := 0, Anonymous := 0, Swap := 0, fs := "/proc" },
   by decide,
   C13_counters_nonnegative ({ PID := 4242, fs := "/proc" } : Proc String) "bash"
    ["Rss: 100 kB".toList, "VmFlags: rd ex".toList, "Rss: 7 kB".toList] _
    (by
      intro text ht
      simp only [List.mem_cons, List.mem_singleton, List.not_mem_nil, or_false] at ht
      rcases ht with h | h | h
      · subst h
        exact fun _ => ⟨100, by decide, by decide, by decide⟩
      · subst h
        exact fun hl => absurd hl (by decide)
      · subst h
        exact fun _ => ⟨7, by decide, by decide, by decide⟩)
    (by intro c; cases c <;> decide)
    (by decide)⟩

/-! ## Splitting on the single space -/

theorem Split_replicate_space (k : Nat) (rest : List Char) :
    Split (List.replicate k ' ' ++ rest) = List.replicate k [] ++ Split rest := by
  induction k with
  | zero => rfl
  | succ k ih =>
    rw [List.replicate_succ, List.cons_append, Split, if_pos rfl, ih]
    rfl

theorem Split_paddedLine (l : List Char) (k : Nat) (t u : List Char) (hl : ¬ hasSpace l)
    (ht : ¬ hasSpace t) (hu : ¬ hasSpace u) :
    Split (paddedLine l k t u) = (l :: List.replicate k []) ++ [t] ++ [u] := by
  rw [paddedLine, Split_append_space _ _ hl, Split_replicate_space,
    Split_append_space _ _ ht, Split_of_not_hasSpace _ hu]
  simp

theorem hasSpace_paddedLine (l : List Char) (k : Nat) (t u : List Char) :
    hasSpace (paddedLine l k t u) := by
  simp [hasSpace, paddedLine]

theorem firstToken_paddedLine (l : List Char) (k : Nat) (t u : List Char)
    (hl : ¬ hasSpace l) : firstToken (paddedLine l k t u) = l :=
  firstToken_append_space l _ hl

theorem valueToken_paddedLine (l : List Char) (k : Nat) (t u : List Char)
    (hl : ¬ hasSpace l) (ht : ¬ hasSpace t) (hu : ¬ hasSpace u) :
    valueToken (paddedLine l k t u) = t := by
  unfold valueToken
  rw [Split_paddedLine l k t u hl ht hu, List.dropLast_concat, List.getLast?_concat]
  rfl

/-- The loop body on a padded line of a recognised label does what it does on the
line with single spaces. -/
theorem lineStep_paddedLine {FS : Type} (ps : ProcSmap FS) (c : Counter) (k : Nat)
    (t u : List Char) (ht : ¬ hasSpace t) (hu : ¬ hasSpace u) :
    lineStep ps (paddedLine c.label k t u) = some (switchLabel ps c.label (Atoi t).1) := by
  rw [lineStep_of_hasSpace ps _ (hasSpace_paddedLine _ _ _ _),
    firstToken_paddedLine _ _ _ _ c.label_not_hasSpace,
    valueToken_paddedLine _ _ _ _ c.label_not_hasSpace ht hu]

/-- C11 (as stated, refuted): a tab is not a separator and leading or trailing spaces
are not skipped.  `Rss: 100 kB` adds 100 to `Rss`; with a leading space the
first token is empty and nothing is added; with a trailing space the value
token is `kB` and zero is added; with tabs for separators the line has no
space at all and the loop body fails. -/
theorem C11_counterexample_tabs_and_outer_spaces :
    lineStep (ProcSmap.zero String) "Rss: 100 kB".toList
      = some { ProcSmap.zero String with Rss := 100 }
    ∧ lineStep (ProcSmap.zero String) " Rss: 100 kB".toList = some (ProcSmap.zero String)
    ∧ lineStep (ProcSmap.zero String) "Rss: 100 kB ".toList = some (ProcSmap.zero String)
    ∧ lineStep (ProcSmap.zero String) "Rss:\t100\tkB".toList = none
    ∧ lineStep (ProcSmap.zero String) "Rss:\t100 kB".toList = some (ProcSmap.zero String) := by
  decide

/-- C11 (amended): the line is split at every single space and at nothing else.  On
every line with a space the label matched is the text before the first space
and the value parsed is the second-to-last element of the split.  For a
recognised label `L` and a decimal integer `n` in `int` range, a line in which
`L` and `n` are separated by one or more spaces and `n` and the unit by
exactly one, with no leading or trailing space, adds `n` to the counter of `L`
exactly as the line `L n kB` does. -/
theorem C11_split_on_single_space {FS : Type} (ps : ProcSmap FS) (c : Counter) (k : Nat)
    (tok unit : List Char) (n : Int) (hval : decimalValue tok = some n)
    (hlo : minInt ≤ n) (hhi : n ≤ maxInt) (hunit : ¬ hasSpace unit) :
    (∀ text : List Char, hasSpace text →
        lineStep ps text
          = some (switchLabel ps (firstToken text) (Atoi (valueToken text)).1))
    ∧ firstToken (paddedLine c.label k tok unit) = c.label
    ∧ valueToken (paddedLine c.label k tok unit) = tok
    ∧ lineStep ps (paddedLine c.label k tok unit) = some (switchLabel ps c.label n)
    ∧ lineStep ps (paddedLine c.label k tok unit)
        = lineStep ps (fieldLine c.label tok ['k', 'B'])
    ∧ (switchLabel ps c.label n).get c = wrapInt (ps.get c + n) := by
  have ht := not_hasSpace_of_decimalValue tok n hval
  have hA : (Atoi tok).1 = n := by rw [Atoi_decimal tok n hval hlo hhi]
  refine ⟨fun text hsp => lineStep_of_hasSpace ps text hsp,
    firstToken_paddedLine _ _ _ _ c.label_not_hasSpace,
    valueToken_paddedLine _ _ _ _ c.label_not_hasSpace ht hunit, ?_, ?_,
    switchLabel_get_self ps n c⟩
  · rw [lineStep_paddedLine ps c k tok unit ht hunit, hA]
  · rw [lineStep_paddedLine ps c k tok unit ht hunit,
      lineStep_fieldLine ps c tok ['k', 'B'] ht (by decide)]

theorem C11_split_on_single_space_witness :
    (∀ text : List Char, hasSpace text →
        lineStep (ProcSmap.zero String) text
          = some (switchLabel (ProcSmap.zero String) (firstToken text)
              (Atoi (valueToken text)).1))
    ∧ firstToken (paddedLine Counter.Rss.label 17 "100".toList "kB".toList)
        = Counter.Rss.label
    ∧ valueToken (paddedLine Counter.Rss.label 17 "100".toList "kB".toList) = "100".toList
    ∧ lineStep (ProcSmap.zero String)
          (paddedLine Counter.Rss.label 17 "100".toList "kB".toList)
        = some (switchLabel (ProcSmap.zero String) Counter.Rss.label 100)
    ∧ lineStep (ProcSmap.zero String)
          (paddedLine Counter.Rss.label 17 "100".toList "kB".toList)
        = lineStep (ProcSmap.zero String)
            (fieldLine Counter.Rss.label "100".toList ['k', 'B'])
    ∧ (switchLabel (ProcSmap.zero String) Counter.Rss.label 100).get Counter.Rss
        = wrapInt ((ProcSmap.zero String).get Counter.Rss + 100) :=
  C11_split_on_single_space (ProcSmap.zero String) Counter.Rss 17 "100".toList
    "kB".toList 100 (by decide) (by decide) (by decide) (by decide)

/-! ## The recognised labels -/

theorem recognisedLabels_length : recognisedLabels.length = 10 := rfl

theorem recognisedLabels_nodup : recognisedLabels.Nodup := by decide

/-- A space-free first token that makes the line `label 1 kB` change the zero
snapshot is one of the recognised labels. -/
theorem mem_recognisedLabels_of_changes (l : List Char) (hl : ¬ hasSpace l)
    (h : lineStep (ProcSmap.zero String) (fieldLine l ['1'] ['k', 'B'])
      ≠ some (ProcSmap.zero String)) : l ∈ recognisedLabels := by
  by_contra hn
  apply h
  apply lineStep_unrecognised _ _ (hasSpace_fieldLine _ _ _)
  rw [firstToken_fieldLine _ _ _ hl]
  exact hn

/-- C15 (as stated, refuted): there are no eleven pairwise distinct labels for which
the line `label 1 kB` changes a counter; the `switch` has ten cases. -/
theorem C15_counterexample_no_eleven_labels :
    ¬ ∃ ls : List (List Char), ls.length = 11 ∧ ls.Nodup
        ∧ ∀ l ∈ ls, ¬ hasSpace l
            ∧ lineStep (ProcSmap.zero String) (fieldLine l ['1'] ['k', 'B'])
                ≠ some (ProcSmap.zero String) := by
  rintro ⟨ls, hlen, hnd, hall⟩
  have hsub : ls ⊆ recognisedLabels := fun l hl =>
    mem_recognisedLabels_of_changes l (hall l hl).1 (hall l hl).2
  have hle := (List.subperm_of_subset hnd hsub).length_le
  rw [hlen, recognisedLabels_length] at hle
  omega

/-- C15 (amended): the builder recognises ten pairwise distinct labels, one for each
of the ten counters of the snapshot.  The line `label 1 kB` of the label of
counter `c` adds one to `c` and leaves the nine other counters, `PID`, `Comm`
and `fs` alone; a line whose first token is none of the ten labels changes
nothing. -/
theorem C15_ten_labels_ten_counters {FS : Type} (ps : ProcSmap FS) (c : Counter) :
    recognisedLabels.length = 10 ∧ recognisedLabels.Nodup
    ∧ c.label ∈ recognisedLabels
    ∧ (∀ d : Counter, d.label = c.label → d = c)
    ∧ lineStep ps (fieldLine c.label ['1'] ['k', 'B']) = some (switchLabel ps c.label 1)
    ∧ (switchLabel ps c.label 1).get c = wrapInt (ps.get c + 1)
    ∧ (∀ d : Counter, d ≠ c → (switchLabel ps c.label 1).get d = ps.get d)
    ∧ (switchLabel ps c.label 1).PID = ps.PID
    ∧ (switchLabel ps c.label 1).Comm = ps.Comm
    ∧ (switchLabel ps c.label 1).fs = ps.fs
    ∧ (∀ text : List Char, hasSpace text → firstToken text ∉ recognisedLabels →
        lineStep ps text = some ps) := by
  have hinj : ∀ d : Counter, d.label = c.label → d = c := by
    intro d
    cases c <;> cases d <;> first | (intro _; rfl) | (intro h; exact absurd h (by decide))
  refine ⟨rfl, recognisedLabels_nodup, c.label_mem_recognisedLabels, hinj, ?_,
    switchLabel_get_self ps 1 c, ?_, switchLabel_PID _ _ _, switchLabel_Comm _ _ _,
    switchLabel_fs _ _ _, fun text hsp hl => lineStep_unrecognised ps text hsp hl⟩
  · have h := lineStep_fieldLine ps c ['1'] ['k', 'B'] (by decide) (by decide)
    rw [h]
    rfl
  · intro d hd
    exact switchLabel_get_other ps c.label 1 d (fun e => hd (hinj d e.symm))

theorem C15_ten_labels_ten_counters_witness :
    hasSpace "VmFlags: rd ex mr".toList
    ∧ firstToken "VmFlags: rd ex mr".toList ∉ recognisedLabels
    ∧ lineStep (ProcSmap.zero String) "VmFlags: rd ex mr".toList
        = some (ProcSmap.zero String)
    ∧ lineStep (ProcSmap.zero String) (fieldLine Counter.Swap.label ['1'] ['k', 'B'])
        = some (switchLabel (ProcSmap.zero String) Counter.Swap.label 1) :=
  ⟨by decide, by decide,
   (C15_ten_labels_ten_counters (ProcSmap.zero String) Counter.Swap).2.2.2.2.2.2.2.2.2.2
     "VmFlags: rd ex mr".toList (by decide) (by decide),
   (C15_ten_labels_ten_counters (ProcSmap.zero String) Counter.Swap).2.2.2.2.1⟩

/-! ## Decimal numerals of integers -/

theorem digitChar_toNat (d : Nat) (h : d < 10) : (digitChar d).toNat = 48 + d := by
  interval_cases d <;> rfl

theorem isDigit_digitChar (d : Nat) (h : d < 10) : isDigit (digitChar d) = true := by
  interval_cases d <;> rfl

theorem digitsValueFrom_append (k : Nat) (ds : List Char) (d : Char) :
    digitsValueFrom k (ds ++ [d]) = digitsValueFrom k ds * 10 + (d.toNat - 48) := by
  unfold digitsValueFrom
  rw [List.foldl_append]
  rfl

/-- With enough fuel the rendering of `m` is a non-empty string of digits that
denotes `m`. -/
theorem renderNatFuel_spec (fuel m : Nat) (h : m < fuel) :
    renderNatFuel fuel m ≠ [] ∧ (∀ c ∈ renderNatFuel fuel m, isDigit c = true)
      ∧ digitsValue (renderNatFuel fuel m) = m := by
  induction fuel generalizing m with
  | zero => omega
  | succ fuel ih =>
    rw [renderNatFuel]
    by_cases hm : m < 10
    · rw [if_pos hm]
      refine ⟨List.cons_ne_nil _ _, ?_, ?_⟩
      · intro c hc
        rw [List.mem_singleton.mp hc]
        exact isDigit_digitChar m hm
      · show 0 * 10 + ((digitChar m).toNat - 48) = m
        rw [digitChar_toNat m hm]
        omega
    · rw [if_neg hm]
      have hlt : m / 10 < fuel := by omega
      have hmod : m % 10 < 10 := Nat.mod_lt _ (by decide)
      obtain ⟨-, h2, h3⟩ := ih (m / 10) hlt
      refine ⟨by simp, ?_, ?_⟩
      · intro c hc
        rcases List.mem_append.mp hc with e | e
        · exact h2 c e
        · rw [List.mem_singleton.mp e]
          exact isDigit_digitChar _ hmod
      · unfold digitsValue at h3 ⊢
        rw [digitsValueFrom_append, h3, digitChar_toNat _ hmod]
        omega

theorem renderNat_spec (m : Nat) :
    renderNat m ≠ [] ∧ (∀ c ∈ renderNat m, isDigit c = true)
      ∧ digitsValue (renderNat m) = m :=
  renderNatFuel_spec (m + 1) m (Nat.lt_succ_self m)

theorem decimalValue_digits (ds : List Char) (hne : ds ≠ [])
    (hd : ∀ c ∈ ds, isDigit c = true) : decimalValue ds = some (digitsValue ds : Int) := by
  cases ds with
  | nil => exact absurd rfl hne
  | cons c cs =>
    have hc : 48 ≤ c.toNat ∧ c.toNat ≤ 57 := (isDigit_iff c).mp (hd c (List.mem_cons_self _ _))
    have hm : c ≠ '-' := by rintro rfl; revert hc; decide
    have hp : c ≠ '+' := by rintro rfl; revert hc; decide
    rw [decimalValue, if_neg hm, if_neg hp, if_pos (List.all_eq_true.mpr hd)]

theorem decimalValue_minus (ds : List Char) (hne : ds ≠ [])
    (hd : ∀ c ∈ ds, isDigit c = true) :
    decimalValue ('-' :: ds) = some (-(digitsValue ds : Int)) := by
  rw [decimalValue, if_pos rfl, if_pos ⟨hne, List.all_eq_true.mpr hd⟩]

theorem decimalValue_plus (ds : List Char) (hne : ds ≠ [])
    (hd : ∀ c ∈ ds, isDigit c = true) :
    decimalValue ('+' :: ds) = some (digitsValue ds : Int) := by
  rw [decimalValue, if_neg (by decide), if_pos rfl, if_pos ⟨hne, List.all_eq_true.mpr hd⟩]

/-- Every integer is denoted by its decimal numeral. -/
theorem decimalValue_renderInt (n : Int) : decimalValue (renderInt n) = some n := by
  obtain ⟨h1, h2, h3⟩ := renderNat_spec n.natAbs
  unfold renderInt
  by_cases hn : n < 0
  · rw [if_pos hn, decimalValue_minus _ h1 h2, h3]
    congr 1
    omega
  · rw [if_neg hn, decimalValue_digits _ h1 h2, h3]
    congr 1
    omega

/-- The loop body on a line `L tok unit` whose token is a decimal numeral of `n` in
`int` range adds `n` to the counter of `L`. -/
theorem lineStep_fieldLine_decimal {FS : Type} (ps : ProcSmap FS) (c : Counter)
    (tok unit : List Char) (n : Int) (hval : decimalValue tok = some n)
    (hlo : minInt ≤ n) (hhi : n ≤ maxInt) (hunit : ¬ hasSpace unit) :
    lineStep ps (fieldLine c.label tok unit) = some (switchLabel ps c.label n) := by
  rw [lineStep_fieldLine ps c tok unit (not_hasSpace_of_decimalValue tok n hval) hunit,
    Atoi_decimal tok n hval hlo hhi]

/-! ## The unit is not validated; signs are accepted -/

/-- C12: the final token is dropped without being looked at.  For every recognised
label `L`, every integer `n` in `int` range (written as any decimal numeral
`tok`, and every `n` has one) and every space-free unit `u`, empty or not, the
line `L tok u` adds exactly `n` to the counter of `L`, as `L tok kB` does, and
changes no other counter. -/
theorem C12_unit_not_validated {FS : Type} (ps : ProcSmap FS) (c : Counter)
    (tok u : List Char) (n : Int) (hval : decimalValue tok = some n)
    (hlo : minInt ≤ n) (hhi : n ≤ maxInt) (hu : ¬ hasSpace u) :
    decimalValue (renderInt n) = some n
    ∧ lineStep ps (fieldLine c.label tok u) = some (switchLabel ps c.label n)
    ∧ lineStep ps (fieldLine c.label tok u) = lineStep ps (fieldLine c.label tok ['k', 'B'])
    ∧ (switchLabel ps c.label n).get c = wrapInt (ps.get c + n)
    ∧ (minInt ≤ ps.get c + n → ps.get c + n ≤ maxInt →
        (switchLabel ps c.label n).get c = ps.get c + n)
    ∧ (∀ d : Counter, d.label ≠ c.label → (switchLabel ps c.label n).get d = ps.get d) := by
  refine ⟨decimalValue_renderInt n, lineStep_fieldLine_decimal ps c tok u n hval hlo hhi hu,
    ?_, switchLabel_get_self ps n c, ?_, ?_⟩
  · rw [lineStep_fieldLine_decimal ps c tok u n hval hlo hhi hu,
      lineStep_fieldLine_decimal ps c tok ['k', 'B'] n hval hlo hhi (by decide)]
  · intro h1 h2
    rw [switchLabel_get_self, wrapInt_of_inRange h1 h2]
  · intro d hd
    exact switchLabel_get_other ps c.label n d (fun e => hd e.symm)

theorem C12_unit_not_validated_witness :
    decimalValue (renderInt 1084) = some 1084
    ∧ lineStep (ProcSmap.zero String) (fieldLine Counter.Size.label "1084".toList "MiB".toList)
        = some (switchLabel (ProcSmap.zero String) Counter.Size.label 1084)
    ∧ lineStep (ProcSmap.zero String) (fieldLine Counter.Size.label "1084".toList "MiB".toList)
        = lineStep (ProcSmap.zero String)
            (fieldLine Counter.Size.label "1084".toList ['k', 'B'])
    ∧ (switchLabel (ProcSmap.zero String) Counter.Size.label 1084).get Counter.Size
        = wrapInt ((ProcSmap.zero String).get Counter.Size + 1084)
    ∧ (minInt ≤ (ProcSmap.zero String).get Counter.Size + 1084 →
        (ProcSmap.zero String).get Counter.Size + 1084 ≤ maxInt →
        (switchLabel (ProcSmap.zero String) Counter.Size.label 1084).get Counter.Size
          = (ProcSmap.zero String).get Counter.Size + 1084)
    ∧ (∀ d : Counter, d.label ≠ Counter.Size.label →
        (switchLabel (ProcSmap.zero String) Counter.Size.label 1084).get d
          = (ProcSmap.zero String).get d) :=
  C12_unit_not_validated (ProcSmap.zero String) Counter.Size "1084".toList "MiB".toList
    1084 (by decide) (by decide) (by decide) (by decide)

/-- C18: signs are accepted.  For every recognised label `L` and every positive `n`
in `int` range (written as any string of digits `ds`, and every `n` has one),
the line `L -ds kB` subtracts `n` from the counter of `L` and `L +ds kB` adds
`n`; the single line `Rss: -5 kB` gives a snapshot with `Rss = -5`. -/
theorem C18_signed_values_accepted {FS : Type} (ps : ProcSmap FS) (c : Counter)
    (ds : List Char) (n : Nat) (hne : ds ≠ []) (hd : ∀ x ∈ ds, isDigit x = true)
    (hds : digitsValue ds = n) (hpos : 0 < n) (hhi : (n : Int) ≤ maxInt) :
    (renderNat n ≠ [] ∧ (∀ x ∈ renderNat n, isDigit x = true)
      ∧ digitsValue (renderNat n) = n)
    ∧ lineStep ps (fieldLine c.label ('-' :: ds) ['k', 'B'])
        = some (switchLabel ps c.label (-(n : Int)))
    ∧ (switchLabel ps c.label (-(n : Int))).get c = wrapInt (ps.get c - (n : Int))
    ∧ lineStep ps (fieldLine c.label ('+' :: ds) ['k', 'B'])
        = some (switchLabel ps c.label (n : Int))
    ∧ (switchLabel ps c.label (n : Int)).get c = wrapInt (ps.get c + (n : Int))
    ∧ NewSmap ({ PID := 4242, fs := "/proc" } : Proc String)
        (World.reading "bash" ["Rss: -5 kB".toList])
      = Outcome.ret
          { PID := 4242, Comm := "bash", Size := 0, Rss := -5, Pss := 0,
            Shared_Clean := 0, Shared_Dirty := 0, Private_Clean := 0,
            Private_Dirty := 0, Referenced := 0, Anonymous := 0, Swap := 0,
            fs := "/proc" } none := by
  have hlo : minInt ≤ -(n : Int) := by
    unfold maxInt at hhi
    unfold minInt
    omega
  have hhi2 : -(n : Int) ≤ maxInt := by
    unfold maxInt
    omega
  have hlo2 : minInt ≤ (n : Int) := by
    unfold minInt
    omega
  refine ⟨renderNat_spec n, ?_, ?_, ?_, switchLabel_get_self ps _ c, by decide⟩
  · exact lineStep_fieldLine_decimal ps c _ _ _ (hds ▸ decimalValue_minus ds hne hd)
      hlo hhi2 (by decide)
  · rw [switchLabel_get_self, sub_eq_add_neg]
  · exact lineStep_fieldLine_decimal ps c _ _ _ (hds ▸ decimalValue_plus ds hne hd)
      hlo2 hhi (by decide)

theorem C18_signed_values_accepted_witness :
    lineStep (ProcSmap.zero String) (fieldLine Counter.Rss.label "-5".toList ['k', 'B'])
        = some (switchLabel (ProcSmap.zero String) Counter.Rss.label (-((5 : Nat) : Int)))
    ∧ (switchLabel (ProcSmap.zero String) Counter.Rss.label (-((5 : Nat) : Int))).get
          Counter.Rss
        = wrapInt ((ProcSmap.zero String).get Counter.Rss - ((5 : Nat) : Int)) :=
  ⟨(C18_signed_values_accepted (ProcSmap.zero String) Counter.Rss "5".toList 5
      (by decide) (by decide) (by decide) (by decide) (by decide)).2.1,
   (C18_signed_values_accepted (ProcSmap.zero String) Counter.Rss "5".toList 5
      (by decide) (by decide) (by decide) (by decide) (by decide)).2.2.1⟩

theorem C17_panic_iff_no_space_witness :
    hasSpace "Rss: 100 kB".toList
    ∧ (0 < (Split "Rss: 100 kB".toList).dropLast.length
        ∧ (Split "Rss: 100 kB".toList).dropLast.head? = some (firstToken "Rss: 100 kB".toList)
        ∧ (Split "Rss: 100 kB".toList).dropLast.getLast?
            = some (valueToken "Rss: 100 kB".toList))
    ∧ (lineStep (ProcSmap.zero String) [] = none ↔ ¬ hasSpace []) :=
  ⟨by decide,
   (C17_panic_iff_no_space (ProcSmap.zero String) "Rss: 100 kB".toList).2.2.2 (by decide),
   (C17_panic_iff_no_space (ProcSmap.zero String) []).1⟩

/-! ## Well-formed input -/

theorem hasSpace_of_WellFormedLine (text : List Char) (h : WellFormedLine text) :
    hasSpace text := by
  cases h with
  | other _ hsp hlab => exact hsp
  | field c k tok unit n hval hlo hhi hunit => exact hasSpace_paddedLine _ _ _ _

/-- On a well-formed line the loop adds to each counter exactly the value the line
states for it. -/
theorem lineContribution_eq_lineValue (text : List Char) (h : WellFormedLine text)
    (c : Counter) : lineContribution c text = lineValue c text := by
  cases h with
  | other _ hsp hlab =>
    have hne : firstToken text ≠ c.label := fun e =>
      hlab (e ▸ c.label_mem_recognisedLabels)
    unfold lineContribution lineValue
    rw [if_neg hne, if_neg hne]
  | field c0 k tok unit n hval hlo hhi hunit =>
    have ht := not_hasSpace_of_decimalValue tok n hval
    unfold lineContribution lineValue
    rw [firstToken_paddedLine _ _ _ _ c0.label_not_hasSpace,
      valueToken_paddedLine _ _ _ _ c0.label_not_hasSpace ht hunit,
      Atoi_decimal tok n hval hlo hhi, hval]
    rfl

/-- The value a well-formed field line states for its own counter is the integer
its value token denotes, whatever the padding. -/
theorem lineValue_paddedLine (c : Counter) (k : Nat) (tok unit : List Char) (n : Int)
    (hval : decimalValue tok = some n) (hunit : ¬ hasSpace unit) :
    lineValue c (paddedLine c.label k tok unit) = n := by
  have ht := not_hasSpace_of_decimalValue tok n hval
  unfold lineValue
  rw [firstToken_paddedLine _ _ _ _ c.label_not_hasSpace, if_pos rfl,
    valueToken_paddedLine _ _ _ _ c.label_not_hasSpace ht hunit, hval]
  rfl

/-- C1: on a well-formed input whose running sums stay in the range of `int`,
`NewSmap` succeeds and each of the ten counters is exactly the sum of the
integer values of the lines whose first token is that counter's label.  The
field lines may be padded as the kernel pads them. -/
theorem C1_counters_are_exact_sums {FS : Type} [Inhabited FS] (p : Proc FS)
    (comm : String) (lines : List (List Char))
    (hwf : ∀ text ∈ lines, WellFormedLine text)
    (hsum : ∀ c : Counter, ∀ k ≤ lines.length,
      minInt ≤ ((lines.take k).map (lineValue c)).sum
        ∧ ((lines.take k).map (lineValue c)).sum ≤ maxInt) :
    ∃ ps : ProcSmap FS,
      NewSmap p (World.reading comm lines) = Outcome.ret ps none
      ∧ ∀ c, ps.get c = (lines.map (lineValue c)).sum := by
  obtain ⟨ps, hps, -, -, -, hget⟩ :=
    NewSmap_of_hasSpace p comm lines (fun text ht => hasSpace_of_WellFormedLine text (hwf text ht))
  refine ⟨ps, hps, ?_⟩
  intro c
  have hmap : lines.map (lineContribution c) = lines.map (lineValue c) :=
    List.map_congr_left (fun text ht => lineContribution_eq_lineValue text (hwf text ht) c)
  have hr := hsum c lines.length (le_refl _)
  rw [List.take_length] at hr
  rw [hget c, hmap]
  exact wrapInt_of_inRange hr.1 hr.2

theorem C1_counters_are_exact_sums_witness :
    "Rss:                 460 kB".toList = paddedLine Counter.Rss.label 16 "460".toList "kB".toList
    ∧ lineValue Counter.Rss "Rss:                 460 kB".toList = 460
    ∧ ∃ ps : ProcSmap String,
      NewSmap ({ PID := 4242, fs := "/proc" } : Proc String)
        (World.reading "bash"
          ["00400000-0048a000 r-xp 00000000 fd:03 960637 /bin/bash".toList,
           "Rss:                 460 kB".toList,
           "Pss: 50 kB".toList,
           "VmFlags: rd ex mr mw me dw".toList,
           "Rss: 100 kB".toList]) = Outcome.ret ps none
      ∧ ∀ c, ps.get c
          = (["00400000-0048a000 r-xp 00000000 fd:03 960637 /bin/bash".toList,
              "Rss:                 460 kB".toList,
              "Pss: 50 kB".toList,
              "VmFlags: rd ex mr mw me dw".toList,
              "Rss: 100 kB".toList].map (lineValue c)).sum :=
  ⟨by decide, by decide,
   C1_counters_are_exact_sums ({ PID := 4242, fs := "/proc" } : Proc String) "bash"
    ["00400000-0048a000 r-xp 00000000 fd:03 960637 /bin/bash".toList,
     "Rss:                 460 kB".toList,
     "Pss: 50 kB".toList,
     "VmFlags: rd ex mr mw me dw".toList,
     "Rss: 100 kB".toList]
    (by
      intro text ht
      simp only [List.mem_cons, List.mem_singleton, List.not_mem_nil, or_false] at ht
      rcases ht with h | h | h | h | h
      · rw [h]
        exact WellFormedLine.other _ (by decide) (by decide)
      · rw [h]
        exact WellFormedLine.field Counter.Rss 16 "460".toList "kB".toList 460
          (by decide) (by decide) (by decide) (by decide)
      · rw [h]
        exact WellFormedLine.field Counter.Pss 0 "50".toList "kB".toList 50
          (by decide) (by decide) (by decide) (by decide)
      · rw [h]
        exact WellFormedLine.other _ (by decide) (by decide)
      · rw [h]
        exact WellFormedLine.field Counter.Rss 0 "100".toList "kB".toList 100
          (by decide) (by decide) (by decide) (by decide))
    (by
      intro c k hk
      have hk5 : k ≤ 5 := hk
      interval_cases k <;> cases c <;> decide)⟩

end Procfs
